import Mathlib

/-!
Verification development for the astromatic wrapper layer
(`astromatic.py`, `sextractor.py`, `utils.py`).

The Python code is shallowly embedded: strings are `List Char`,
dictionaries are functions `List Char → Option α`, object state is passed
explicitly, and Python exceptions are modelled with `Except PyErr`.
-/

set_option maxRecDepth 10000

/-! ## Python-style string primitives -/

/-- Python's notion of a whitespace character (the ASCII subset relevant to
`str.strip`/`str.split`). -/
def pyIsSpace (c : Char) : Bool :=
  c = ' ' || c = '\t' || c = '\n' || c = '\r' || c = '\x0b' || c = '\x0c'

/-- Drop leading whitespace (Python `str.lstrip`). -/
def pyStripLeft : List Char → List Char
  | [] => []
  | c :: cs => if pyIsSpace c then pyStripLeft cs else c :: cs

/-- Python `str.strip`: drop leading and trailing whitespace. -/
def pyStrip (l : List Char) : List Char :=
  ((pyStripLeft ((pyStripLeft l).reverse)).reverse)

/-- Python `str.split(sep)` for a one-character separator: split at every
occurrence, keeping empty pieces.  The result is never empty. -/
def pySplitOn (sep : Char) : List Char → List (List Char)
  | [] => [[]]
  | c :: cs =>
    if c = sep then [] :: pySplitOn sep cs
    else
      match pySplitOn sep cs with
      | [] => [[c]]
      | h :: t => (c :: h) :: t

/-- Worker for `pySplitWs`; `acc` holds the current token reversed. -/
def pySplitWsAux : List Char → List Char → List (List Char)
  | [], acc => if acc = [] then [] else [acc.reverse]
  | c :: cs, acc =>
    if pyIsSpace c then
      if acc = [] then pySplitWsAux cs []
      else acc.reverse :: pySplitWsAux cs []
    else pySplitWsAux cs (c :: acc)

/-- Python `str.split()` with no argument: split on whitespace runs,
discarding empty tokens. -/
def pySplitWs (l : List Char) : List (List Char) :=
  pySplitWsAux l []

/-- `l` starts with character `c` (Python `str.startswith` for one char). -/
def headIs (c : Char) : List Char → Bool
  | [] => false
  | x :: _ => x = c

/-- `p` is an initial segment of `l` (Python `str.startswith`). -/
def listStartsWith : List Char → List Char → Bool
  | [], _ => true
  | _ :: _, [] => false
  | p :: ps, x :: xs => p = x && listStartsWith ps xs

/-- `n` occurs as a contiguous sublist of `l` (Python `in` on strings). -/
def hasSub (n : List Char) : List Char → Bool
  | [] => listStartsWith n []
  | x :: xs => listStartsWith n (x :: xs) || hasSub n xs

/-- Python `str.lower` (ASCII behaviour). -/
def pyLower (l : List Char) : List Char := l.map Char.toLower

/-- `'\n'.join` of a list of lines. -/
def joinLines (ls : List (List Char)) : List Char :=
  List.intercalate ['\n'] ls

/-! ## Errors, values, configuration store -/

/-- The Python exceptions raised by the embedded code, by raise site. -/
inductive PyErr where
  /-- `AstromaticError(msg, stderr, stdout)` raised on a bad exit code;
  the formatted message is modelled by the executable path and return code
  it interpolates. -/
  | astromaticError (execpath : List Char) (retcode : Int)
      (stderrCap stdoutCap : Option (List Char))
  /-- An I/O failure (temp-file creation/write, `open` failing). -/
  | ioError
  /-- `OSError` from `subprocess.Popen` when the executable cannot run. -/
  | oserror
  /-- `TypeError` (e.g. writing `None` content to a file). -/
  | typeError
  /-- `ValueError('Invalid content in config file: ...')`. -/
  | invalidContent
  /-- `ValueError a value-too-many unpack of a line with several hash signs. -/
  | unpackError
  /-- `ValueError("Item ... but the file hasn't been generated!")`;
  the flag records whether the item was an input (`true`) or output proxy. -/
  | valueNotGenerated (iname : List Char) (isInput : Bool)
  /-- `KeyError(key)` from dictionary access / `__setitem__` rejection. -/
  | keyError (key : List Char)
  /-- `AttributeError` from failed attribute lookup. -/
  | attributeError
  /-- `IndexError` (continuation comment with no preceding item). -/
  | indexError
deriving DecidableEq, Repr

/-- A configuration value: a literal string, a `ProxyInputFile` or a
`ProxyOutputFile`.  Proxy objects are referred to by an identity `pid`,
mirroring Python object identity; their mutable fields live in `Sys`. -/
inductive Value where
  | lit (s : List Char)
  | pin (pid : Nat)
  | pout (pid : Nat)
deriving DecidableEq, Repr

/-- The mutable fields of a `ProxyInputFile`/`ProxyOutputFile`:
`content` (Python `None` modelled as `none`) and `tempfileobj`
(modelled by the temporary file's name). -/
structure ProxyData where
  content : Option (List Char)
  tempfileobj : Option (List Char)
deriving DecidableEq, Repr

/-- Pointwise update of a string-keyed dictionary. -/
def updD {α : Type} (f : List Char → Option α) (k : List Char) (v : α) :
    List Char → Option α :=
  fun k' => if k' = k then some v else f k'

/-- `AstromaticConfiguration`: ordered item names, the settings and comments
dictionaries, plus the instance `__dict__` entries created by
`object.__setattr__` for names outside the schema. -/
structure Config where
  items : List (List Char)
  settings : List Char → Option Value
  comments : List Char → Option (List Char)
  extras : List Char → Option Value

/-- The empty configuration (start state of `_parse_config_file`). -/
def emptyConfig : Config :=
  { items := [], settings := fun _ => none, comments := fun _ => none,
    extras := fun _ => none }

/-! ## `AstromaticConfiguration._parse_config_file` -/

/-- Process one line of a configuration dump, mirroring the body of the
`for l in configstr.split('\n')` loop in `_parse_config_file`. -/
def parseLine (cfg : Config) (l : List Char) : Except PyErr Config :=
  if headIs '#' l || pyStrip l = [] then .ok cfg
  else
    match pySplitOn '#' l with
    | [] => .error .unpackError
    | content₀ :: rest =>
      match rest with
      | _ :: _ :: _ => .error .unpackError
      | _ =>
        let comment : List Char := match rest with
          | [cm] => cm
          | _ => []
        let contentstrip := pyStrip content₀
        if contentstrip = [] then
          match cfg.items.getLast? with
          | none => .error .indexError
          | some lasti =>
            match cfg.comments lasti with
            | none => .error (.keyError lasti)
            | some old =>
              .ok { cfg with
                comments := updD cfg.comments lasti (old ++ ' ' :: pyStrip comment) }
        else
          match pySplitWs contentstrip with
          | [] => .error .invalidContent
          | [nm] =>
            .ok { cfg with
                    items := cfg.items ++ [nm]
                    settings := updD cfg.settings nm (.lit [])
                    comments := updD cfg.comments nm comment }
          | nm :: _ :: _ =>
            let val := pyStrip (contentstrip.drop nm.length)
            .ok { cfg with
                    items := cfg.items ++ [nm]
                    settings := updD cfg.settings nm (.lit val)
                    comments := updD cfg.comments nm comment }

/-- Fold `parseLine` over a list of lines. -/
def parseLines : Config → List (List Char) → Except PyErr Config
  | cfg, [] => .ok cfg
  | cfg, l :: ls =>
    match parseLine cfg l with
    | .error e => .error e
    | .ok cfg' => parseLines cfg' ls

/-- `AstromaticConfiguration._parse_config_file` on a fresh store. -/
def parseConfigFile (s : List Char) : Except PyErr Config :=
  parseLines emptyConfig (pySplitOn '\n' s)

/-- The ordered item list of a parse result (empty on error). -/
def parsedItems (s : List Char) : List (List Char) :=
  match parseConfigFile s with
  | .ok cfg => cfg.items
  | .error _ => []

/-- The stored setting of one item of a parse result. -/
def parsedSetting (s : List Char) (nm : List Char) : Option Value :=
  match parseConfigFile s with
  | .ok cfg => cfg.settings nm
  | .error _ => none

/-- The stored comment of one item of a parse result. -/
def parsedComment (s : List Char) (nm : List Char) : Option (List Char) :=
  match parseConfigFile s with
  | .ok cfg => cfg.comments nm
  | .error _ => none

/-! ## Store access and rendering -/

/-- The sentinel shown for an unmaterialized `ProxyInputFile`. -/
def inputSentinel : List Char := "PROXY INPUT FILE NOT PRESENT".data

/-- The sentinel shown for an unmaterialized `ProxyOutputFile`. -/
def outputSentinel : List Char := "PROXY OUTPUT FILE NOT PRESENT".data

/-- The `for iname in self._config_items` loop of `get_normalized_items`,
over an explicit item list. -/
def normalizeItems (cfg : Config) (prox : Nat → ProxyData) (accept : Bool) :
    List (List Char) → Except PyErr (List (List Char × List Char))
  | [] => .ok []
  | iname :: rest =>
    match cfg.settings iname with
    | none => .error (.keyError iname)
    | some (.lit s) =>
      match normalizeItems cfg prox accept rest with
      | .error e => .error e
      | .ok tl => .ok ((iname, s) :: tl)
    | some (.pin pid) =>
      match (prox pid).tempfileobj with
      | some nm =>
        match normalizeItems cfg prox accept rest with
        | .error e => .error e
        | .ok tl => .ok ((iname, nm) :: tl)
      | none =>
        if accept then
          match normalizeItems cfg prox accept rest with
          | .error e => .error e
          | .ok tl => .ok ((iname, inputSentinel) :: tl)
        else .error (.valueNotGenerated iname true)
    | some (.pout pid) =>
      match (prox pid).tempfileobj with
      | some nm =>
        match normalizeItems cfg prox accept rest with
        | .error e => .error e
        | .ok tl => .ok ((iname, nm) :: tl)
      | none =>
        if accept then
          match normalizeItems cfg prox accept rest with
          | .error e => .error e
          | .ok tl => .ok ((iname, outputSentinel) :: tl)
        else .error (.valueNotGenerated iname false)

/-- `AstromaticConfiguration.get_normalized_items`, resolving each value
against the proxy state `prox`.  `accept` is `acceptungenerated`. -/
def getNormalizedItems (cfg : Config) (prox : Nat → ProxyData) (accept : Bool) :
    Except PyErr (List (List Char × List Char)) :=
  normalizeItems cfg prox accept cfg.items

/-- `AstromaticConfiguration.get_cmdline_arguments`: alternating
`-NAME`/`value` entries in store order. -/
def getCmdlineArguments (cfg : Config) (prox : Nat → ProxyData) :
    Except PyErr (List (List Char)) :=
  match getNormalizedItems cfg prox false with
  | .error e => .error e
  | .ok pairs => .ok (pairs.foldr (fun p acc => ('-' :: p.1) :: p.2 :: acc) [])

/-- `AstromaticConfiguration.get_file_contents`: newline-joined
`NAME VALUE` lines. -/
def getFileContents (cfg : Config) (prox : Nat → ProxyData) :
    Except PyErr (List Char) :=
  match getNormalizedItems cfg prox false with
  | .error e => .error e
  | .ok pairs => .ok (joinLines (pairs.map (fun p => p.1 ++ ' ' :: p.2)))

/-- `AstromaticConfiguration.__getitem__`. -/
def cfgGetitem (cfg : Config) (key : List Char) : Except PyErr Value :=
  match cfg.settings key with
  | some v => .ok v
  | none => .error (.keyError key)

/-- `AstromaticConfiguration.__setitem__` (the `configname` rebinding of a
proxy value touches no field modelled here). -/
def cfgSetitem (cfg : Config) (key : List Char) (v : Value) :
    Except PyErr Config :=
  if key ∈ cfg.items then
    .ok { cfg with settings := updD cfg.settings key v }
  else .error (.keyError key)

/-- Attribute read `cfg.NAME`: ordinary lookup finds instance attributes
first; `__getattr__` then serves schema names not starting with an
underscore and raises `AttributeError` otherwise. -/
def cfgGetattr (cfg : Config) (name : List Char) : Except PyErr Value :=
  match cfg.extras name with
  | some v => .ok v
  | none =>
    if headIs '_' name then .error .attributeError
    else if name ∈ cfg.items then
      match cfg.settings name with
      | some v => .ok v
      | none => .error (.keyError name)
    else .error .attributeError

/-- Attribute write `cfg.NAME = v` (`__setattr__`): schema names route
through `__setitem__`; any other name becomes an ordinary instance
attribute via `object.__setattr__`. -/
def cfgSetattr (cfg : Config) (name : List Char) (v : Value) :
    Except PyErr Config :=
  if name ∈ cfg.items then cfgSetitem cfg name v
  else .ok { cfg with extras := updD cfg.extras name v }

/-! ## System state for the Invocation Engine -/

/-- The world an invocation acts on: proxy objects (by identity), the
filesystem (name to contents, `none` = file absent), the counter generating
fresh temporary names, plus ghost instrumentation: per-proxy cleanup
counts, the temp files created by the current call (with the proxy each was
created for), the number of child processes spawned, the read-back events,
the last argv built, and the config file written by the current call. -/
structure Sys where
  proxies : Nat → ProxyData
  fs : List Char → Option (List Char)
  counter : Nat
  cleanups : Nat → Nat
  created : List (Nat × List Char)
  spawns : Nat
  readbacks : List Nat
  lastargv : Option (List (List Char))
  cfgWritten : Option (List Char × List Char)

/-- Pointwise update of the proxy table. -/
def updP (f : Nat → ProxyData) (pid : Nat) (v : ProxyData) : Nat → ProxyData :=
  fun p => if p = pid then v else f p

/-- Pointwise update of the filesystem. -/
def updF (f : List Char → Option (List Char)) (nm : List Char)
    (v : Option (List Char)) : List Char → Option (List Char) :=
  fun n => if n = nm then v else f n

/-- Pointwise bump of the cleanup counters. -/
def bumpC (f : Nat → Nat) (pid : Nat) : Nat → Nat :=
  fun p => if p = pid then f p + 1 else f p

/-- The fresh name `NamedTemporaryFile` hands out for counter value `k`
(uniqueness is what matters; the name is injective in `k` by length). -/
def tempName (k : Nat) : List Char :=
  't' :: 'm' :: 'p' :: List.replicate k '!'

/-- Outcome of materializing one input proxy: temp-file creation succeeds
or raises, and the subsequent `write` may raise after the file exists. -/
inductive MatOutcome where
  | ok
  | failCreate
  | failWrite
deriving DecidableEq, Repr

/-- The environment of one `_invoke_tool` call: injected materialization
failures (indexed by position in the input/output proxy lists), whether the
config-file `open` succeeds, whether `Popen` succeeds, the child's exit
code and captured streams, and the filesystem effect of the child. -/
structure Env where
  matIn : Nat → MatOutcome
  matOut : Nat → Bool
  cfgWriteOk : Bool
  popenOk : Bool
  retcode : Int
  stdoutS : List Char
  stderrS : List Char
  toolFs : (List Char → Option (List Char)) → (List Char → Option (List Char))

/-- How `useconfig` is passed: `False`, `True`, or a config-file path. -/
inductive UseConfig where
  | noConfig
  | cmdline
  | file (path : List Char)
deriving DecidableEq, Repr

/-- `AstromaticConfiguration.get_proxies`: the input- and output-proxy ids
in item order (an aliased proxy appears once per item binding it). -/
def getProxies (cfg : Config) : List Nat × List Nat :=
  (cfg.items.foldr (fun nm acc =>
      match cfg.settings nm with
      | some (.pin pid) => pid :: acc
      | _ => acc) [],
   cfg.items.foldr (fun nm acc =>
      match cfg.settings nm with
      | some (.pout pid) => pid :: acc
      | _ => acc) [])

/-- The `for inp in inproxies` materialization loop: create a temp file,
record it, then write the proxy's content (raising `TypeError` on `None`
content).  `i` is the position used to index injected failures. -/
def matInputs (env : Env) : List Nat → Nat → Sys → Except PyErr Unit × Sys
  | [], _, s => (.ok (), s)
  | pid :: rest, i, s =>
    match env.matIn i with
    | .failCreate => (.error .ioError, s)
    | o =>
      let nm := tempName s.counter
      let p := s.proxies pid
      let s1 : Sys :=
        { s with
            counter := s.counter + 1
            proxies := updP s.proxies pid { p with tempfileobj := some nm }
            fs := updF s.fs nm (some [])
            created := s.created ++ [(pid, nm)] }
      if o = .failWrite then (.error .ioError, s1)
      else
        match p.content with
        | none => (.error .typeError, s1)
        | some c =>
          matInputs env rest (i + 1) { s1 with fs := updF s1.fs nm (some c) }

/-- The `for outp in outproxies` materialization loop: create an empty temp
file and record its name. -/
def matOutputs (env : Env) : List Nat → Nat → Sys → Except PyErr Unit × Sys
  | [], _, s => (.ok (), s)
  | pid :: rest, j, s =>
    if env.matOut j then
      let nm := tempName s.counter
      let p := s.proxies pid
      matOutputs env rest (j + 1)
        { s with
            counter := s.counter + 1
            proxies := updP s.proxies pid { p with tempfileobj := some nm }
            fs := updF s.fs nm (some [])
            created := s.created ++ [(pid, nm)] }
    else (.error .ioError, s)

/-- Argv construction (lines 87–100): for a config-file path, write
`get_file_contents()` to it and prepend `-c <path>`; for `useconfig=True`
append `get_cmdline_arguments()` to the caller's arguments; finally prepend
the executable path. -/
def buildArgv (cfgOpt : Option Config) (execpath : List Char)
    (extra : List (List Char)) (useconfig : UseConfig) (env : Env) (s : Sys) :
    Except PyErr (List (List Char)) × Sys :=
  match useconfig with
  | .noConfig => (.ok (execpath :: extra), s)
  | .file path =>
    match cfgOpt with
    | none => (.error .attributeError, s)
    | some cfg =>
      if env.cfgWriteOk then
        match getFileContents cfg s.proxies with
        | .error e => (.error e, s)
        | .ok fc =>
          (.ok (execpath :: "-c".data :: path :: extra),
           { s with
               fs := updF s.fs path (some fc)
               cfgWritten := some (path, fc) })
      else (.error .ioError, s)
  | .cmdline =>
    match cfgOpt with
    | none => (.error .attributeError, s)
    | some cfg =>
      match getCmdlineArguments cfg s.proxies with
      | .error e => (.error e, s)
      | .ok ca => (.ok (execpath :: (extra ++ ca)), s)

/-- The read-back loop over the output proxies after a valid exit code:
`outp.content = open(outp.tempfileobj.name).read()`. -/
def readBacks : List Nat → Sys → Except PyErr Unit × Sys
  | [], s => (.ok (), s)
  | pid :: rest, s =>
    match (s.proxies pid).tempfileobj with
    | none => (.error .attributeError, s)
    | some nm =>
      match s.fs nm with
      | none => (.error .ioError, s)
      | some d =>
        readBacks rest
          { s with
              proxies := updP s.proxies pid
                { (s.proxies pid) with content := some d }
              readbacks := s.readbacks ++ [pid] }

/-- One iteration of the `finally` loop: if the proxy has a temp file,
close it, remove the file if it still exists, and clear `tempfileobj`. -/
def cleanupOne (s : Sys) (pid : Nat) : Sys :=
  match (s.proxies pid).tempfileobj with
  | none => s
  | some nm =>
    { s with
        cleanups := bumpC s.cleanups pid
        fs := if (s.fs nm).isSome then updF s.fs nm none else s.fs
        proxies := updP s.proxies pid { (s.proxies pid) with tempfileobj := none } }

/-- The whole `finally` block over `allproxies`. -/
def cleanupAll (allp : List Nat) (s : Sys) : Sys :=
  allp.foldl cleanupOne s

/-- The `try` body of `AstromaticTool._invoke_tool`: materialize proxies,
build argv, spawn the child, check the exit code, read back outputs.
Returns the captured `(stdout, stderr)` (both `None` when `showoutput`). -/
def runTry (cfgOpt : Option Config) (inp outp : List Nat) (execpath : List Char)
    (extra : List (List Char)) (validretcodes : List Int)
    (useconfig : UseConfig) (showoutput : Bool) (env : Env) (s : Sys) :
    Except PyErr (Option (List Char) × Option (List Char)) × Sys :=
  match matInputs env inp 0 s with
  | (.error e, s1) => (.error e, s1)
  | (.ok _, s1) =>
    match matOutputs env outp 0 s1 with
    | (.error e, s2) => (.error e, s2)
    | (.ok _, s2) =>
      match buildArgv cfgOpt execpath extra useconfig env s2 with
      | (.error e, s3) => (.error e, s3)
      | (.ok argv, s3) =>
        let s4 : Sys := { s3 with lastargv := some argv }
        if env.popenOk then
          let s5 : Sys := { s4 with
              spawns := s4.spawns + 1
              fs := env.toolFs s4.fs }
          let so : Option (List Char) :=
            if showoutput then none else some env.stdoutS
          let se : Option (List Char) :=
            if showoutput then none else some env.stderrS
          if env.retcode ∈ validretcodes then
            match readBacks outp s5 with
            | (.error e, s6) => (.error e, s6)
            | (.ok _, s6) => (.ok (so, se), s6)
          else (.error (.astromaticError execpath env.retcode se so), s5)
        else (.error .oserror, s4)

/-- `AstromaticTool._invoke_tool`: the `try` body above wrapped in the
`finally` cleanup of every proxy, with the per-call created-file ghost
reset on entry. -/
def invokeTool (cfgOpt : Option Config) (execpath : List Char)
    (extra : List (List Char)) (validretcodes : List Int)
    (useconfig : UseConfig) (showoutput : Bool) (env : Env) (s0 : Sys) :
    Except PyErr (Option (List Char) × Option (List Char)) × Sys :=
  let pr := match cfgOpt with
    | none => ([], [])
    | some cfg => getProxies cfg
  let r := runTry cfgOpt pr.1 pr.2 execpath extra validretcodes useconfig
      showoutput env { s0 with created := [] }
  (r.1, cleanupAll (pr.1 ++ pr.2) r.2)

/-! ## `Sextractor._invoke_tool` wrapper -/

/-- The config item name `PARAMETERS_NAME`. -/
def pnKey : List Char := "PARAMETERS_NAME".data

/-- The placeholder prefix tested by the wrapper. -/
def placeholderPrefix : List Char := "PLACEHOLDER".data

/-- Set the content of proxy `pid`. -/
def setContent (s : Sys) (pid : Nat) (c : Option (List Char)) : Sys :=
  { s with proxies := updP s.proxies pid { (s.proxies pid) with content := c } }

/-- `Sextractor._invoke_tool`: capture the prior `PARAMETERS_NAME.content`
when the attribute exists, swap in the newline-joined output list while it
is the placeholder, delegate to the engine, and restore the prior content
in a `finally` when it was not `None`. -/
def sexInvokeTool (cfgOpt : Option Config) (outputs : List (List Char))
    (execpath : List Char) (extra : List (List Char))
    (validretcodes : List Int) (useconfig : UseConfig) (showoutput : Bool)
    (env : Env) (s0 : Sys) :
    Except PyErr (Option (List Char) × Option (List Char)) × Sys :=
  match cfgOpt with
  | none =>
    invokeTool none execpath extra validretcodes useconfig showoutput env s0
  | some cfg =>
    match cfgGetattr cfg pnKey with
    | .error e => (.error e, s0)
    | .ok v =>
      match v with
      | .lit _ =>
        -- a plain string has no `content` attribute: no swap, no restore
        invokeTool (some cfg) execpath extra validretcodes useconfig
          showoutput env s0
      | .pin pid =>
        let oldcontent := (s0.proxies pid).content
        let s1 := match oldcontent with
          | some c =>
            if listStartsWith placeholderPrefix c then
              setContent s0 pid (some (joinLines outputs))
            else s0
          | none => s0
        let r := invokeTool (some cfg) execpath extra validretcodes useconfig
          showoutput env s1
        match oldcontent with
        | some _ => (r.1, setContent r.2 pid oldcontent)
        | none => r
      | .pout pid =>
        let oldcontent := (s0.proxies pid).content
        let s1 := match oldcontent with
          | some c =>
            if listStartsWith placeholderPrefix c then
              setContent s0 pid (some (joinLines outputs))
            else s0
          | none => s0
        let r := invokeTool (some cfg) execpath extra validretcodes useconfig
          showoutput env s1
        match oldcontent with
        | some _ => (r.1, setContent r.2 pid oldcontent)
        | none => r

/-! ## `Sextractor.get_output` format dispatch -/

/-- The possible results of `Sextractor.get_output`: content handed to one
of the table parsers, the raw content, or Python `None` (the implicit
return when no branch fires). -/
inductive CatOut where
  | votableParsed (c : List Char)
  | asciiParsed (c : List Char)
  | fitsParsed (c : List Char)
  | raw (c : List Char)
deriving DecidableEq, Repr

/-- The `astable` dispatch of `Sextractor.get_output` on the retrieved
content: the lowered `CATALOG_TYPE` selects a parser by substring match;
`astable=False` returns the raw content; an unrecognized type under
`astable=True` falls out of the `if` chain and returns `None`. -/
def sexGetOutput (cattype content : List Char) (astable : Bool) :
    Option CatOut :=
  if astable then
    let l := pyLower cattype
    if hasSub "votable".data l then some (.votableParsed content)
    else if hasSub "ascii".data l then some (.asciiParsed content)
    else if hasSub "fits".data l then some (.fitsParsed content)
    else none
  else some (.raw content)

/-! ## Executable discovery (`which_path` and `AstromaticTool.__init__`) -/

/-- How the `which` subprocess behaves: it is missing (`OSError`), it finds
nothing (exit code ≠ 0), or it prints a path. -/
inductive WhichEnv where
  | noWhich
  | notFound
  | found (p : List Char)
deriving DecidableEq, Repr

/-- `which_path` / `_which_path`: returns the found path, or `None` after
emitting a warning.  The second component records whether a warning was
issued. -/
def whichPath (env : WhichEnv) : Option (List Char) × Bool :=
  match env with
  | .noWhich => (none, true)
  | .notFound => (none, true)
  | .found p => (some p, false)

/-- `os.path.abspath`: raises on `None` (Python `None` has no string
methods), otherwise resolves against the working directory. -/
def abspath (cwd : List Char) : Option (List Char) → Except PyErr (List Char)
  | none => .error .attributeError
  | some p => .ok (if headIs '/' p then p else cwd ++ '/' :: p)

/-- The executable-path portion of `AstromaticTool.__init__`: fall back to
the PATH search when `execpath` is `None`, then take `os.path.abspath` of
the result.  Returns the outcome and whether a warning was emitted. -/
def toolInitExecpath (execpath : Option (List Char)) (env : WhichEnv)
    (cwd : List Char) : Except PyErr (List Char) × Bool :=
  match execpath with
  | some p => (abspath cwd (some p), false)
  | none =>
    let w := whichPath env
    (abspath cwd w.1, w.2)

/-! ## Statement helpers -/

/-- The C2 scenario config dump. -/
def c2dump : List Char := "OPT1 5 # first\nOPT2 hello\n".data

/-- `get_file_contents()` of the store a dump parses to (propagating a
parse failure). -/
def dumpFileContents (s : List Char) : Except PyErr (List Char) :=
  match parseConfigFile s with
  | .ok cfg => getFileContents cfg (fun _ => ⟨none, none⟩)
  | .error e => .error e

/-- `__setitem__` followed by `__getitem__` on the same name. -/
def setThenGetMap (cfg : Config) (name : List Char) (v : Value) :
    Except PyErr Value :=
  match cfgSetitem cfg name v with
  | .ok cfg' => cfgGetitem cfg' name
  | .error e => .error e

/-- `__setattr__` followed by `__getattr__` on the same name. -/
def setThenGetAttr (cfg : Config) (name : List Char) (v : Value) :
    Except PyErr Value :=
  match cfgSetattr cfg name v with
  | .ok cfg' => cfgGetattr cfg' name
  | .error e => .error e

/-- A one-item store `OPT1 → "5"` used as a concrete instance. -/
def c4cfg : Config :=
  { items := ["OPT1".data]
    settings := updD (fun _ => none) "OPT1".data (.lit "5".data)
    comments := updD (fun _ => none) "OPT1".data []
    extras := fun _ => none }

/-- The string an item resolves to in the `acceptungenerated=True` branch
of `get_normalized_items`. -/
def displayValue (cfg : Config) (prox : Nat → ProxyData) (nm : List Char) :
    List Char :=
  match cfg.settings nm with
  | some (.lit s) => s
  | some (.pin pid) =>
    match (prox pid).tempfileobj with
    | some n => n
    | none => inputSentinel
  | some (.pout pid) =>
    match (prox pid).tempfileobj with
    | some n => n
    | none => outputSentinel
  | none => []

/-- The state reached by a fully successful input-materialization loop:
for each proxy in order, a fresh temp file holding its content. -/
def matStateIn : List Nat → Sys → Sys
  | [], s => s
  | pid :: rest, s =>
    let nm := tempName s.counter
    let p := s.proxies pid
    matStateIn rest
      { s with
          counter := s.counter + 1
          proxies := updP s.proxies pid { p with tempfileobj := some nm }
          fs := updF (updF s.fs nm (some [])) nm (some (p.content.getD []))
          created := s.created ++ [(pid, nm)] }

/-- The state reached by a fully successful output-materialization loop:
for each proxy in order, a fresh empty temp file. -/
def matStateOut : List Nat → Sys → Sys
  | [], s => s
  | pid :: rest, s =>
    let nm := tempName s.counter
    let p := s.proxies pid
    matStateOut rest
      { s with
          counter := s.counter + 1
          proxies := updP s.proxies pid { p with tempfileobj := some nm }
          fs := updF s.fs nm (some [])
          created := s.created ++ [(pid, nm)] }

/-- The system state right after both materialization loops of a call of
`_invoke_tool` succeed (the state argv construction sees). -/
def midSys (cfg : Config) (s0 : Sys) : Sys :=
  matStateOut (getProxies cfg).2
    (matStateIn (getProxies cfg).1 { s0 with created := [] })

/-- An all-succeeding environment: no injected failures, exit code 0,
captured streams `"out"`/`"err"`, the child touching no files. -/
def okEnv : Env :=
  { matIn := fun _ => .ok
    matOut := fun _ => true
    cfgWriteOk := true
    popenOk := true
    retcode := 0
    stdoutS := "out".data
    stderrS := "err".data
    toolFs := id }

/-- A pristine system: every proxy has no content and no temp file, the
filesystem is empty, all counters are zero. -/
def zeroSys : Sys :=
  { proxies := fun _ => ⟨none, none⟩
    fs := fun _ => none
    counter := 0
    cleanups := fun _ => 0
    created := []
    spawns := 0
    readbacks := []
    lastargv := none
    cfgWritten := none }

/-- A store whose single item `PARAMETERS_NAME` is bound to the (fresh,
content-`None`) output proxy `0`. -/
def c10cfg : Config :=
  { items := [pnKey]
    settings := updD (fun _ => none) pnKey (.pout 0)
    comments := fun _ => none
    extras := fun _ => none }

/-- A store that binds the *same* input proxy object (id 0) to two
different items, `A` and `B` — the aliasing Python permits via
`cfg.A = p; cfg.B = p`. -/
def c1cfg : Config :=
  { items := ["A".data, "B".data]
    settings := updD (updD (fun _ => none) "A".data (.pin 0)) "B".data (.pin 0)
    comments := fun _ => none
    extras := fun _ => none }

/-- A system whose proxies all hold content `"x"` and no temp file. -/
def c1sys : Sys :=
  { zeroSys with proxies := fun _ => ⟨some "x".data, none⟩ }

/-- A store with one literal item `A → "1"` (no proxies). -/
def c5cfg : Config :=
  { items := ["A".data]
    settings := updD (fun _ => none) "A".data (.lit "1".data)
    comments := fun _ => none
    extras := fun _ => none }

/-- A name the config-file syntax can carry faithfully: nonempty, no
whitespace, no comment character. -/
def GoodName (nm : List Char) : Prop :=
  nm ≠ [] ∧ ∀ c ∈ nm, pyIsSpace c = false ∧ c ≠ '#'

/-- A value the config-file syntax can carry faithfully: no comment
character, no newline, and no surrounding whitespace. -/
def GoodVal (v : List Char) : Prop :=
  (∀ c ∈ v, c ≠ '#' ∧ c ≠ '\n') ∧ pyStrip v = v

/-- The literal value a store holds for `nm` (empty for non-literals). -/
def fvalOf (cfg : Config) (nm : List Char) : List Char :=
  match cfg.settings nm with
  | some (.lit v) => v
  | _ => []

/-- The ordered `(name, value)` pairs of a literal-valued store. -/
def litPairs (cfg : Config) : List (List Char × List Char) :=
  cfg.items.map fun nm => (nm, fvalOf cfg nm)

/-- The pairs obtained by re-parsing a config-file string. -/
def reparsePairs (s : List Char) : List (List Char × List Char) :=
  match parseConfigFile s with
  | .ok cfg => litPairs cfg
  | .error _ => []

/-- One `NAME VALUE` config-file line. -/
def renderLine (p : List Char × List Char) : List Char :=
  p.1 ++ ' ' :: p.2

/-- The parser's effect of one content line: append the item. -/
def appendLit (cfg : Config) (nm v : List Char) : Config :=
  { cfg with
      items := cfg.items ++ [nm]
      settings := updD cfg.settings nm (.lit v)
      comments := updD cfg.comments nm [] }

/-- `appendLit` folded over a pair list. -/
def appendAll (cfg : Config) : List (List Char × List Char) → Config
  | [] => cfg
  | p :: ps => appendAll (appendLit cfg p.1 p.2) ps

/-- A one-item store whose value contains a `#` — unrepresentable in the
config-file syntax. -/
def c7cfg : Config :=
  { items := ["OPT1".data]
    settings := updD (fun _ => none) "OPT1".data (.lit "a#b".data)
    comments := fun _ => none
    extras := fun _ => none }

/-- The well-formed two-item literal store `OPT1 → "5"`, `OPT2 → "hello"`. -/
def c7okcfg : Config :=
  { items := ["OPT1".data, "OPT2".data]
    settings := updD (updD (fun _ => none) "OPT1".data (.lit "5".data))
      "OPT2".data (.lit "hello".data)
    comments := fun _ => none
    extras := fun _ => none }

/-! ## Theorems -/

/-- **C2, counterexample.**  The claim states that parsing
`"OPT1 5 # first\nOPT2 hello\n"` stores the comment `"first"` for `OPT1`;
the parser in fact stores the raw text after `#`, which is `" first"`
with its leading space. -/
theorem claim_C2_counterexample :
    parsedComment c2dump "OPT1".data ≠ some "first".data ∧
    parsedComment c2dump "OPT1".data = some " first".data := by
  exact ⟨by decide, by decide⟩

/-- **C2, amended.**  Parsing `"OPT1 5 # first\nOPT2 hello\n"` yields the
ordered items `OPT1 → "5"`, `OPT2 → "hello"`, with `OPT1`'s comment equal
to `" first"` (the raw text after `#`, leading space preserved) and
`OPT2`'s comment empty, and `get_file_contents()` returns
`"OPT1 5\nOPT2 hello"`. -/
theorem claim_C2 :
    parsedItems c2dump = ["OPT1".data, "OPT2".data] ∧
    parsedSetting c2dump "OPT1".data = some (.lit "5".data) ∧
    parsedSetting c2dump "OPT2".data = some (.lit "hello".data) ∧
    parsedComment c2dump "OPT1".data = some " first".data ∧
    parsedComment c2dump "OPT2".data = some [] ∧
    dumpFileContents c2dump = .ok "OPT1 5\nOPT2 hello".data := by
  refine ⟨by decide, by decide, by decide, by decide, by decide, by rfl⟩

/-- **C8, counterexample.**  The claim states that `get_output(astable=True)`
returns the raw content when `CATALOG_TYPE` matches no recognized format
tag; in fact the `if astable:` chain falls through and the call returns
`None`. -/
theorem claim_C8_counterexample :
    sexGetOutput "WEIRD".data "xyz".data true = none ∧
    (none : Option CatOut) ≠ some (.raw "xyz".data) := by
  exact ⟨by decide, by decide⟩

/-- **C8, amended.**  When the configured `CATALOG_TYPE` matches none of
the recognized format tags, `get_output(astable=True)` returns `None`
(nothing); the raw content bytes are returned unchanged only when
`astable=False`. -/
theorem claim_C8 (cattype content : List Char)
    (h1 : hasSub "votable".data (pyLower cattype) = false)
    (h2 : hasSub "ascii".data (pyLower cattype) = false)
    (h3 : hasSub "fits".data (pyLower cattype) = false) :
    sexGetOutput cattype content true = none ∧
    sexGetOutput cattype content false = some (.raw content) := by
  constructor
  · simp [sexGetOutput, h1, h2, h3]
  · simp [sexGetOutput]

/-- Witness for C8 at `CATALOG_TYPE = "WEIRD"`. -/
theorem claim_C8_witness :
    sexGetOutput "WEIRD".data "xyz".data true = none ∧
    sexGetOutput "WEIRD".data "xyz".data false = some (.raw "xyz".data) :=
  claim_C8 "WEIRD".data "xyz".data (by decide) (by decide) (by decide)

/-- **C9** (code bug).  When the PATH search fails (`which` reports
nothing, or `which` itself is missing), `which_path` warns and returns
`None` — but `AstromaticTool.__init__` then calls
`os.path.abspath(None)`, which raises, so construction hard-fails instead
of leaving a `None` executable path as the claim (and the code's own
warning text) promises. -/
theorem claim_C9 (cwd : List Char) :
    whichPath .notFound = (none, true) ∧
    whichPath .noWhich = (none, true) ∧
    toolInitExecpath none .notFound cwd = (.error .attributeError, true) ∧
    toolInitExecpath none .noWhich cwd = (.error .attributeError, true) := by
  exact ⟨rfl, rfl, rfl, rfl⟩

/-- **C4, counterexample.**  The claim states that for a name never
declared in the schema both get and set fail with the same error under
both access styles.  On `{OPT1: "5"}` with undeclared name `NEW`:
attribute-style set silently succeeds (it creates an ordinary instance
attribute), and the two get errors differ (`KeyError` vs
`AttributeError`). -/
theorem claim_C4_counterexample :
    (cfgSetattr c4cfg "NEW".data (.lit "7".data)).isOk = true ∧
    cfgGetitem c4cfg "NEW".data = .error (.keyError "NEW".data) ∧
    cfgGetattr c4cfg "NEW".data = .error .attributeError ∧
    PyErr.keyError "NEW".data ≠ PyErr.attributeError := by
  exact ⟨by decide, by rfl, by rfl, by decide⟩

/-- **C4, amended.**  For every declared name, set-then-get returns the
stored value under mapping style, and under attribute style provided the
name does not begin with an underscore and is not shadowed by an instance
attribute.  For a name never declared: mapping-style get and set both
raise `KeyError`; attribute-style get raises `AttributeError` (a different
error); attribute-style set does **not** fail — it silently creates an
instance attribute, after which attribute-style get returns it. -/
theorem claim_C4 (cfg : Config) (name : List Char) (v : Value)
    (hE : cfg.extras name = none) :
    (name ∈ cfg.items →
      setThenGetMap cfg name v = .ok v ∧
      (headIs '_' name = false → setThenGetAttr cfg name v = .ok v)) ∧
    (name ∉ cfg.items → cfg.settings name = none →
      cfgGetitem cfg name = .error (.keyError name) ∧
      cfgSetitem cfg name v = .error (.keyError name) ∧
      cfgGetattr cfg name = .error .attributeError ∧
      (cfgSetattr cfg name v).isOk = true ∧
      setThenGetAttr cfg name v = .ok v) := by
  constructor
  · intro hIn
    constructor
    · simp [setThenGetMap, cfgSetitem, hIn, cfgGetitem, updD]
    · intro hU
      simp [setThenGetAttr, cfgSetattr, hIn, cfgSetitem, cfgGetattr, hE,
        hU, updD]
  · intro hOut hS
    refine ⟨?_, ?_, ?_, ?_, ?_⟩
    · simp [cfgGetitem, hS]
    · simp [cfgSetitem, hOut]
    · simp [cfgGetattr, hE, hOut]
    · simp [cfgSetattr, hOut, cfgSetitem, Except.isOk, Except.toBool]
    · simp [setThenGetAttr, cfgSetattr, hOut, cfgSetitem, cfgGetattr, updD]

/-- Witness for C4: both branches exercised on the concrete store
`{OPT1: "5"}` with value `"7"`, names `OPT1` (declared) and `NEW`
(undeclared). -/
theorem claim_C4_witness :
    (setThenGetMap c4cfg "OPT1".data (.lit "7".data) = .ok (.lit "7".data) ∧
     setThenGetAttr c4cfg "OPT1".data (.lit "7".data) = .ok (.lit "7".data)) ∧
    (cfgGetitem c4cfg "NEW".data = .error (.keyError "NEW".data) ∧
     (cfgSetattr c4cfg "NEW".data (.lit "7".data)).isOk = true) := by
  refine ⟨⟨((claim_C4 c4cfg "OPT1".data (.lit "7".data) (by decide)).1
      (by decide)).1,
    ((claim_C4 c4cfg "OPT1".data (.lit "7".data) (by decide)).1
      (by decide)).2 (by decide)⟩,
    ⟨((claim_C4 c4cfg "NEW".data (.lit "7".data) (by decide)).2
      (by decide) (by decide)).1,
     ((claim_C4 c4cfg "NEW".data (.lit "7".data) (by decide)).2
      (by decide) (by decide)).2.2.2.1⟩⟩

/-- Helper: straight from the loop structure, a strict
`get_normalized_items` pass over a list containing an unmaterialized proxy
ends in the "hasn't been generated" `ValueError`. -/
lemma normalizeItems_false_notGenerated (cfg : Config) (prox : Nat → ProxyData) :
    ∀ l : List (List Char),
    (∀ nm ∈ l, (cfg.settings nm).isSome = true) →
    (∃ nm, nm ∈ l ∧ ∃ pid,
      (cfg.settings nm = some (.pin pid) ∨ cfg.settings nm = some (.pout pid)) ∧
      (prox pid).tempfileobj = none) →
    ∃ iname isIn,
      normalizeItems cfg prox false l = .error (.valueNotGenerated iname isIn) := by
  intro l
  induction l with
  | nil =>
    rintro _ ⟨nm, hnm, _⟩
    simp at hnm
  | cons hd tl ih =>
    rintro hWF ⟨nm, hnm, pid, hset, hunmat⟩
    cases hhd : cfg.settings hd with
    | none =>
      have := hWF hd (by simp)
      simp [hhd] at this
    | some v =>
      cases v with
      | lit s =>
        have hnm' : nm ∈ tl := by
          rcases List.mem_cons.mp hnm with h | h
          · subst h
            rcases hset with h' | h' <;> rw [hhd] at h' <;> simp at h'
          · exact h
        obtain ⟨iname, isIn, heq⟩ :=
          ih (fun x hx => hWF x (List.mem_cons_of_mem _ hx))
            ⟨nm, hnm', pid, hset, hunmat⟩
        exact ⟨iname, isIn, by simp [normalizeItems, hhd, heq]⟩
      | pin pid' =>
        cases htf : (prox pid').tempfileobj with
        | none => exact ⟨hd, true, by simp [normalizeItems, hhd, htf]⟩
        | some n =>
          have hnm' : nm ∈ tl := by
            rcases List.mem_cons.mp hnm with h | h
            · subst h
              rcases hset with h' | h'
              · rw [hhd] at h'
                simp at h'
                subst h'
                simp [hunmat] at htf
              · rw [hhd] at h'
                simp at h'
            · exact h
          obtain ⟨iname, isIn, heq⟩ :=
            ih (fun x hx => hWF x (List.mem_cons_of_mem _ hx))
              ⟨nm, hnm', pid, hset, hunmat⟩
          exact ⟨iname, isIn, by simp [normalizeItems, hhd, htf, heq]⟩
      | pout pid' =>
        cases htf : (prox pid').tempfileobj with
        | none => exact ⟨hd, false, by simp [normalizeItems, hhd, htf]⟩
        | some n =>
          have hnm' : nm ∈ tl := by
            rcases List.mem_cons.mp hnm with h | h
            · subst h
              rcases hset with h' | h'
              · rw [hhd] at h'
                simp at h'
              · rw [hhd] at h'
                simp at h'
                subst h'
                simp [hunmat] at htf
            · exact h
          obtain ⟨iname, isIn, heq⟩ :=
            ih (fun x hx => hWF x (List.mem_cons_of_mem _ hx))
              ⟨nm, hnm', pid, hset, hunmat⟩
          exact ⟨iname, isIn, by simp [normalizeItems, hhd, htf, heq]⟩

/-- Helper: with `acceptungenerated=True`, the pass returns the full item
list with each item resolved to its display value. -/
lemma normalizeItems_true_ok (cfg : Config) (prox : Nat → ProxyData) :
    ∀ l : List (List Char),
    (∀ nm ∈ l, (cfg.settings nm).isSome = true) →
    normalizeItems cfg prox true l =
      .ok (l.map fun nm => (nm, displayValue cfg prox nm)) := by
  intro l
  induction l with
  | nil => intro _; simp [normalizeItems]
  | cons hd tl ih =>
    intro hWF
    have htl := ih (fun x hx => hWF x (List.mem_cons_of_mem _ hx))
    cases hhd : cfg.settings hd with
    | none =>
      have := hWF hd (by simp)
      simp [hhd] at this
    | some v =>
      cases v with
      | lit s => simp [normalizeItems, hhd, htl, displayValue]
      | pin pid' =>
        cases htf : (prox pid').tempfileobj with
        | none => simp [normalizeItems, hhd, htf, htl, displayValue]
        | some n => simp [normalizeItems, hhd, htf, htl, displayValue]
      | pout pid' =>
        cases htf : (prox pid').tempfileobj with
        | none => simp [normalizeItems, hhd, htf, htl, displayValue]
        | some n => simp [normalizeItems, hhd, htf, htl, displayValue]

/-- **C6** (confirmed).  On a store containing an input or output proxy
with no materialized temp path, `get_normalized_items` with
`acceptungenerated=False` fails with the "hasn't been generated"
`ValueError`, while with `acceptungenerated=True` it returns the full
ordered item list with the sentinel placeholder substituted for every
unmaterialized proxy (and temp names / literals elsewhere). -/
theorem claim_C6 (cfg : Config) (prox : Nat → ProxyData)
    (hWF : ∀ nm ∈ cfg.items, (cfg.settings nm).isSome = true)
    (hP : ∃ nm, nm ∈ cfg.items ∧ ∃ pid,
      (cfg.settings nm = some (.pin pid) ∨ cfg.settings nm = some (.pout pid)) ∧
      (prox pid).tempfileobj = none) :
    (∃ iname isIn,
      getNormalizedItems cfg prox false = .error (.valueNotGenerated iname isIn)) ∧
    getNormalizedItems cfg prox true =
      .ok (cfg.items.map fun nm => (nm, displayValue cfg prox nm)) := by
  exact ⟨normalizeItems_false_notGenerated cfg prox cfg.items hWF hP,
    normalizeItems_true_ok cfg prox cfg.items hWF⟩

/-- Witness for C6: a store whose single item is an unmaterialized
output proxy. -/
theorem claim_C6_witness :
    (∃ iname isIn,
      getNormalizedItems
        { items := ["A".data]
          settings := updD (fun _ => none) "A".data (.pout 0)
          comments := fun _ => none
          extras := fun _ => none }
        (fun _ => ⟨none, none⟩) false = .error (.valueNotGenerated iname isIn)) ∧
    getNormalizedItems
        { items := ["A".data]
          settings := updD (fun _ => none) "A".data (.pout 0)
          comments := fun _ => none
          extras := fun _ => none }
        (fun _ => ⟨none, none⟩) true =
      .ok (["A".data].map fun nm =>
        (nm, displayValue
          { items := ["A".data]
            settings := updD (fun _ => none) "A".data (.pout 0)
            comments := fun _ => none
            extras := fun _ => none }
          (fun _ => ⟨none, none⟩) nm)) := by
  exact claim_C6 _ _ (by intro nm h; simp at h; simp [h, updD])
    ⟨"A".data, by simp, 0, Or.inr (by simp [updD]), rfl⟩

/-- **C10, counterexample.**  The claim quantifies over every call in
which `cfg.PARAMETERS_NAME` carries a `content` attribute beforehand.  A
fresh `ProxyOutputFile` bound to `PARAMETERS_NAME` carries the attribute
with value `None`; after a successful invocation the engine's read-back
has populated it, and the wrapper's `finally` (guarded by
`oldcontent is not None`) does not restore it. -/
theorem claim_C10_counterexample :
    (zeroSys.proxies 0).content = none ∧
    ((sexInvokeTool (some c10cfg) [] "ex".data [] [0] .noConfig false okEnv
        zeroSys).2.proxies 0).content = some [] ∧
    some ([] : List Char) ≠ (none : Option (List Char)) := by
  exact ⟨rfl, by rfl, by decide⟩

/-- **C10, amended.**  For every `Sextractor._invoke_tool` call in which
`cfg.PARAMETERS_NAME` carries a **non-`None`** `content` beforehand, that
content is restored to its prior value when the call returns or raises,
on every exit path; when the attribute exists but is `None` (a fresh
output proxy) a successful invocation may instead leave it populated. -/
theorem claim_C10 (cfg : Config) (outputs : List (List Char))
    (execpath : List Char) (extra : List (List Char))
    (validretcodes : List Int) (useconfig : UseConfig) (showoutput : Bool)
    (env : Env) (s0 : Sys) (pid : Nat) (c : List Char)
    (hv : cfgGetattr cfg pnKey = .ok (.pin pid) ∨
          cfgGetattr cfg pnKey = .ok (.pout pid))
    (hc : (s0.proxies pid).content = some c) :
    ((sexInvokeTool (some cfg) outputs execpath extra validretcodes useconfig
        showoutput env s0).2.proxies pid).content = some c := by
  rcases hv with hv | hv <;>
    simp [sexInvokeTool, hv, hc, setContent, updP]

/-- Witness for C10: `PARAMETERS_NAME` bound to input proxy `1` holding
`"P"`, restored after a successful engine run. -/
theorem claim_C10_witness :
    ((sexInvokeTool (some
        { items := [pnKey]
          settings := updD (fun _ => none) pnKey (.pin 1)
          comments := fun _ => none
          extras := fun _ => none })
      [] "ex".data [] [0] .noConfig false okEnv
      { zeroSys with proxies := fun _ => ⟨some "P".data, none⟩ }).2.proxies
        1).content = some "P".data := by
  exact claim_C10 _ [] "ex".data [] [0] .noConfig false okEnv
    { zeroSys with proxies := fun _ => ⟨some "P".data, none⟩ } 1 "P".data
    (Or.inl (by rfl)) rfl

/-! ## Engine invariant lemmas -/

/-- The read-back loop touches only proxy contents and the read-back log:
every other field, and every `tempfileobj`, is preserved, in success and
failure alike. -/
lemma readBacks_frame : ∀ (l : List Nat) (s : Sys),
    (∀ q, ((readBacks l s).2.proxies q).tempfileobj = (s.proxies q).tempfileobj) ∧
    (readBacks l s).2.fs = s.fs ∧
    (readBacks l s).2.counter = s.counter ∧
    (readBacks l s).2.cleanups = s.cleanups ∧
    (readBacks l s).2.created = s.created ∧
    (readBacks l s).2.spawns = s.spawns ∧
    (readBacks l s).2.lastargv = s.lastargv ∧
    (readBacks l s).2.cfgWritten = s.cfgWritten := by
  intro l
  induction l with
  | nil => intro s; simp [readBacks]
  | cons pid rest ih =>
    intro s
    cases htf : (s.proxies pid).tempfileobj with
    | none => simp [readBacks, htf]
    | some nm =>
      cases hfs : s.fs nm with
      | none => simp [readBacks, htf, hfs]
      | some d =>
        have h := ih
          { s with
              proxies := updP s.proxies pid
                { (s.proxies pid) with content := some d }
              readbacks := s.readbacks ++ [pid] }
        simp only [readBacks, htf, hfs] at h ⊢
        obtain ⟨h1, h2, h3, h4, h5, h6, h7, h8⟩ := h
        refine ⟨?_, h2, h3, h4, h5, h6, h7, h8⟩
        intro q
        rw [h1 q]
        by_cases hq : q = pid <;> simp [updP, hq, htf]

/-- One `finally` iteration touches only the cleaned proxy's
`tempfileobj`, its cleanup counter and the filesystem entry it removes:
contents and ghost fields survive. -/
lemma cleanupOne_frame (s : Sys) (pid : Nat) :
    (∀ q, ((cleanupOne s pid).proxies q).content = (s.proxies q).content) ∧
    (∀ q, q ≠ pid → (cleanupOne s pid).proxies q = s.proxies q) ∧
    (∀ q, q ≠ pid → (cleanupOne s pid).cleanups q = s.cleanups q) ∧
    (cleanupOne s pid).created = s.created ∧
    (cleanupOne s pid).counter = s.counter ∧
    (cleanupOne s pid).spawns = s.spawns ∧
    (cleanupOne s pid).readbacks = s.readbacks ∧
    (cleanupOne s pid).lastargv = s.lastargv ∧
    (cleanupOne s pid).cfgWritten = s.cfgWritten ∧
    (∀ nm, s.fs nm = none → (cleanupOne s pid).fs nm = none) := by
  cases htf : (s.proxies pid).tempfileobj with
  | none => simp [cleanupOne, htf]
  | some nm =>
    have hcl : cleanupOne s pid =
        { s with
            cleanups := bumpC s.cleanups pid
            fs := if (s.fs nm).isSome then updF s.fs nm none else s.fs
            proxies := updP s.proxies pid
              { (s.proxies pid) with tempfileobj := none } } := by
      simp [cleanupOne, htf]
    rw [hcl]
    refine ⟨?_, ?_, ?_, rfl, rfl, rfl, rfl, rfl, rfl, ?_⟩
    · intro q
      by_cases hq : q = pid <;> simp [updP, hq]
    · intro q hq
      simp [updP, hq]
    · intro q hq
      simp [bumpC, hq]
    · intro nm' h
      by_cases hsp : (s.fs nm).isSome
      · simp only [hsp, if_true]
        by_cases he : nm' = nm <;> simp [updF, he, h]
      · simp [hsp, h]

/-- `cleanupAll` frame: contents, ghosts, and absent files are preserved. -/
lemma cleanupAll_frame : ∀ (l : List Nat) (s : Sys),
    (∀ q, ((cleanupAll l s).proxies q).content = (s.proxies q).content) ∧
    (cleanupAll l s).created = s.created ∧
    (cleanupAll l s).counter = s.counter ∧
    (cleanupAll l s).spawns = s.spawns ∧
    (cleanupAll l s).readbacks = s.readbacks ∧
    (cleanupAll l s).lastargv = s.lastargv ∧
    (cleanupAll l s).cfgWritten = s.cfgWritten ∧
    (∀ nm, s.fs nm = none → (cleanupAll l s).fs nm = none) ∧
    (∀ q, q ∉ l → (cleanupAll l s).proxies q = s.proxies q) ∧
    (∀ q, q ∉ l → (cleanupAll l s).cleanups q = s.cleanups q) := by
  intro l
  induction l with
  | nil =>
    intro s
    simp [cleanupAll]
  | cons pid rest ih =>
    intro s
    obtain ⟨c1, c2, c3, c4, c5, c6, c7, c8, c9, c10⟩ := cleanupOne_frame s pid
    obtain ⟨i1, i2, i3, i4, i5, i6, i7, i8, i9, i10⟩ := ih (cleanupOne s pid)
    have hfold : cleanupAll (pid :: rest) s = cleanupAll rest (cleanupOne s pid) := rfl
    rw [hfold]
    refine ⟨?_, ?_, ?_, ?_, ?_, ?_, ?_, ?_, ?_, ?_⟩
    · intro q; rw [i1 q, c1 q]
    · rw [i2, c4]
    · rw [i3, c5]
    · rw [i4, c6]
    · rw [i5, c7]
    · rw [i6, c8]
    · rw [i7, c9]
    · intro nm h; exact i8 nm (c10 nm h)
    · intro q hq
      have hq1 : q ≠ pid := fun h => hq (h ▸ List.mem_cons_self pid rest)
      have hq2 : q ∉ rest := fun h => hq (List.mem_cons_of_mem _ h)
      rw [i9 q hq2, c2 q hq1]
    · intro q hq
      have hq1 : q ≠ pid := fun h => hq (h ▸ List.mem_cons_self pid rest)
      have hq2 : q ∉ rest := fun h => hq (List.mem_cons_of_mem _ h)
      rw [i10 q hq2, c3 q hq1]

/-- What the `finally` loop guarantees when every proxy occurs once in
`allproxies`: every proxy's `tempfileobj` is cleared; the file named by a
proxy's temp-file object is gone; the cleanup counter of each proxy is
bumped exactly when it held a temp file. -/
lemma cleanupAll_spec : ∀ (l : List Nat) (s : Sys), l.Nodup →
    (∀ pid ∈ l, ((cleanupAll l s).proxies pid).tempfileobj = none) ∧
    (∀ pid ∈ l, ∀ nm, (s.proxies pid).tempfileobj = some nm →
      (cleanupAll l s).fs nm = none) ∧
    (∀ pid ∈ l, (cleanupAll l s).cleanups pid =
      s.cleanups pid +
        (if (s.proxies pid).tempfileobj = none then 0 else 1)) := by
  intro l
  induction l with
  | nil =>
    intro s _
    simp
  | cons hd rest ih =>
    intro s hnd
    have hnd' := hnd
    rw [List.nodup_cons] at hnd'
    obtain ⟨hhd, hrest⟩ := hnd'
    obtain ⟨i1, i2, i3⟩ := ih (cleanupOne s hd) hrest
    obtain ⟨c1, c2, c3, c4, c5, c6, c7, c8, c9, c10⟩ := cleanupOne_frame s hd
    obtain ⟨f1, f2, f3, f4, f5, f6, f7, f8, f9, f10⟩ :=
      cleanupAll_frame rest (cleanupOne s hd)
    have hfold : cleanupAll (hd :: rest) s = cleanupAll rest (cleanupOne s hd) :=
      rfl
    rw [hfold]
    refine ⟨?_, ?_, ?_⟩
    · intro pid hpid
      rcases List.mem_cons.mp hpid with h | h
      · subst h
        have hq : ((cleanupOne s pid).proxies pid).tempfileobj = none := by
          cases htf : (s.proxies pid).tempfileobj with
          | none => simp [cleanupOne, htf, htf]
          | some nm => simp [cleanupOne, htf, updP]
        rw [f9 pid hhd, hq]
      · exact i1 pid h
    · intro pid hpid nm htf
      rcases List.mem_cons.mp hpid with h | h
      · subst h
        have hgone : (cleanupOne s pid).fs nm = none := by
          simp only [cleanupOne, htf]
          by_cases hsp : (s.fs nm).isSome
          · simp [hsp, updF]
          · simp [hsp]
            cases hv : s.fs nm with
            | none => rfl
            | some d => rw [hv] at hsp; simp at hsp
        exact f8 nm hgone
      · have htf' : ((cleanupOne s hd).proxies pid).tempfileobj = some nm := by
          have hne : pid ≠ hd := fun he => hhd (he ▸ h)
          rw [c2 pid hne, htf]
        exact i2 pid h nm htf'
    · intro pid hpid
      rcases List.mem_cons.mp hpid with h | h
      · subst h
        have hcl : (cleanupOne s pid).cleanups pid =
            s.cleanups pid +
              (if (s.proxies pid).tempfileobj = none then 0 else 1) := by
          cases htf : (s.proxies pid).tempfileobj with
          | none => simp [cleanupOne, htf]
          | some nm => simp [cleanupOne, htf, bumpC]
        rw [f10 pid hhd, hcl]
      · have hne : pid ≠ hd := fun he => hhd (he ▸ h)
        rw [i3 pid h, c3 pid hne, c2 pid hne]

/-- Invariant carried through the input-materialization loop, whatever its
outcome: every file recorded in `created` is the current temp file of its
proxy; the proxies appearing in `created` are pairwise distinct; each new
entry belongs to a looped-over proxy; untouched proxies keep their
`tempfileobj`; the cleanup counters are untouched; `created` grows. -/
lemma matInputs_inv (env : Env) : ∀ (pids : List Nat) (i : Nat) (s : Sys),
    pids.Nodup →
    (∀ p ∈ pids, p ∉ s.created.map Prod.fst) →
    (∀ e ∈ s.created, (s.proxies e.1).tempfileobj = some e.2) →
    (s.created.map Prod.fst).Nodup →
    ((∀ e ∈ (matInputs env pids i s).2.created,
        ((matInputs env pids i s).2.proxies e.1).tempfileobj = some e.2) ∧
     ((matInputs env pids i s).2.created.map Prod.fst).Nodup ∧
     (∀ e ∈ (matInputs env pids i s).2.created, e ∈ s.created ∨ e.1 ∈ pids) ∧
     (∀ q, q ∉ (matInputs env pids i s).2.created.map Prod.fst →
        ((matInputs env pids i s).2.proxies q).tempfileobj =
          (s.proxies q).tempfileobj) ∧
     (matInputs env pids i s).2.cleanups = s.cleanups ∧
     (∀ e ∈ s.created, e ∈ (matInputs env pids i s).2.created)) := by
  intro pids
  induction pids with
  | nil =>
    intro i s _ _ h3 h4
    exact ⟨h3, h4, fun e he => Or.inl he, fun q _ => rfl, rfl, fun e he => he⟩
  | cons pid rest ih =>
    intro i s hnd h2 h3 h4
    rw [List.nodup_cons] at hnd
    obtain ⟨hpr, hndr⟩ := hnd
    have hpid0 : pid ∉ s.created.map Prod.fst := h2 pid (List.mem_cons_self _ _)
    -- the state after the temp file of `pid` is created
    set nm := tempName s.counter with hnm
    set s1 : Sys :=
      { s with
          counter := s.counter + 1
          proxies := updP s.proxies pid
            { s.proxies pid with tempfileobj := some nm }
          fs := updF s.fs nm (some [])
          created := s.created ++ [(pid, nm)] } with hs1
    have hA1 : ∀ e ∈ s1.created, (s1.proxies e.1).tempfileobj = some e.2 := by
      intro e he
      rcases List.mem_append.mp he with h | h
      · have hne : e.1 ≠ pid := by
          intro hcontra
          exact hpid0 (hcontra ▸ List.mem_map_of_mem Prod.fst h)
        show (updP s.proxies pid _ e.1).tempfileobj = some e.2
        rw [updP]
        simp [hne]
        exact h3 e h
      · simp at h
        subst h
        show (updP s.proxies pid _ pid).tempfileobj = some nm
        rw [updP]
        simp
    have hA2 : (s1.created.map Prod.fst).Nodup := by
      show ((s.created ++ [(pid, nm)]).map Prod.fst).Nodup
      rw [List.map_append]
      rw [List.nodup_append]
      refine ⟨h4, List.nodup_singleton _, ?_⟩
      intro a ha hb
      simp at hb
      exact hpid0 (hb ▸ ha)
    have hA3 : ∀ e ∈ s1.created, e ∈ s.created ∨ e.1 ∈ pid :: rest := by
      intro e he
      rcases List.mem_append.mp he with h | h
      · exact Or.inl h
      · simp at h
        subst h
        exact Or.inr (List.mem_cons_self _ _)
    have hA4 : ∀ q, q ∉ s1.created.map Prod.fst →
        (s1.proxies q).tempfileobj = (s.proxies q).tempfileobj := by
      intro q hq
      have hne : q ≠ pid := by
        intro hcontra
        apply hq
        rw [hcontra]
        exact List.mem_map_of_mem Prod.fst
          (List.mem_append.mpr (Or.inr (List.mem_singleton.mpr rfl)))
      show (updP s.proxies pid _ q).tempfileobj = _
      rw [updP]
      simp [hne]
    have hA6 : ∀ e ∈ s.created, e ∈ s1.created := by
      intro e he
      exact List.mem_append.mpr (Or.inl he)
    cases hmi : env.matIn i with
    | failCreate =>
      have hm : matInputs env (pid :: rest) i s = (.error .ioError, s) := by
        simp [matInputs, hmi]
      rw [hm]
      exact ⟨h3, h4, fun e he => Or.inl he, fun q _ => rfl, rfl, fun e he => he⟩
    | failWrite =>
      have hm : matInputs env (pid :: rest) i s = (.error .ioError, s1) := by
        simp [matInputs, hmi, hs1]
      rw [hm]
      exact ⟨hA1, hA2, hA3, hA4, rfl, hA6⟩
    | ok =>
      cases hc : (s.proxies pid).content with
      | none =>
        have hm : matInputs env (pid :: rest) i s = (.error .typeError, s1) := by
          simp [matInputs, hmi, hc, hs1]
        rw [hm]
        exact ⟨hA1, hA2, hA3, hA4, rfl, hA6⟩
      | some c =>
        set s2 : Sys := { s1 with fs := updF s1.fs nm (some c) } with hs2
        have hm : matInputs env (pid :: rest) i s =
            matInputs env rest (i + 1) s2 := by
          simp [matInputs, hmi, hc, hs1, hs2]
        have hs2c : s2.created = s.created ++ [(pid, nm)] := rfl
        have hs2p : s2.proxies = s1.proxies := rfl
        have h2' : ∀ p ∈ rest, p ∉ s2.created.map Prod.fst := by
          intro p hp
          rw [hs2c, List.map_append]
          intro hmem
          rcases List.mem_append.mp hmem with h | h
          · exact h2 p (List.mem_cons_of_mem _ hp) h
          · simp at h
            exact hpr (h ▸ hp)
        obtain ⟨i1, i2, i3, i4, i5, i6⟩ := ih (i + 1) s2 hndr h2' hA1 hA2
        rw [hm]
        refine ⟨i1, i2, ?_, ?_, i5, ?_⟩
        · intro e he
          rcases i3 e he with h | h
          · rcases List.mem_append.mp h with h' | h'
            · exact Or.inl h'
            · simp at h'
              subst h'
              exact Or.inr (List.mem_cons_self _ _)
          · exact Or.inr (List.mem_cons_of_mem _ h)
        · intro q hq
          have hq2 : q ∉ s2.created.map Prod.fst := by
            intro hcontra
            rcases List.mem_map.mp hcontra with ⟨e, he, hfst⟩
            exact hq (hfst ▸ List.mem_map_of_mem Prod.fst (i6 e he))
          have hqpid : q ≠ pid := by
            intro hcontra
            apply hq2
            rw [hcontra, hs2c]
            exact List.mem_map_of_mem Prod.fst
              (List.mem_append.mpr (Or.inr (List.mem_singleton.mpr rfl)))
          rw [i4 q hq]
          show (updP s.proxies pid _ q).tempfileobj = _
          rw [updP]
          simp [hqpid]
        · intro e he
          exact i6 e (hA6 e he)

/-- The same invariant for the output-materialization loop. -/
lemma matOutputs_inv (env : Env) : ∀ (pids : List Nat) (j : Nat) (s : Sys),
    pids.Nodup →
    (∀ p ∈ pids, p ∉ s.created.map Prod.fst) →
    (∀ e ∈ s.created, (s.proxies e.1).tempfileobj = some e.2) →
    (s.created.map Prod.fst).Nodup →
    ((∀ e ∈ (matOutputs env pids j s).2.created,
        ((matOutputs env pids j s).2.proxies e.1).tempfileobj = some e.2) ∧
     ((matOutputs env pids j s).2.created.map Prod.fst).Nodup ∧
     (∀ e ∈ (matOutputs env pids j s).2.created, e ∈ s.created ∨ e.1 ∈ pids) ∧
     (∀ q, q ∉ (matOutputs env pids j s).2.created.map Prod.fst →
        ((matOutputs env pids j s).2.proxies q).tempfileobj =
          (s.proxies q).tempfileobj) ∧
     (matOutputs env pids j s).2.cleanups = s.cleanups ∧
     (∀ e ∈ s.created, e ∈ (matOutputs env pids j s).2.created)) := by
  intro pids
  induction pids with
  | nil =>
    intro j s _ _ h3 h4
    exact ⟨h3, h4, fun e he => Or.inl he, fun q _ => rfl, rfl, fun e he => he⟩
  | cons pid rest ih =>
    intro j s hnd h2 h3 h4
    rw [List.nodup_cons] at hnd
    obtain ⟨hpr, hndr⟩ := hnd
    have hpid0 : pid ∉ s.created.map Prod.fst := h2 pid (List.mem_cons_self _ _)
    cases hmo : env.matOut j with
    | false =>
      have hm : matOutputs env (pid :: rest) j s = (.error .ioError, s) := by
        simp [matOutputs, hmo]
      rw [hm]
      exact ⟨h3, h4, fun e he => Or.inl he, fun q _ => rfl, rfl, fun e he => he⟩
    | true =>
      set nm := tempName s.counter with hnm
      set s1 : Sys :=
        { s with
            counter := s.counter + 1
            proxies := updP s.proxies pid
              { s.proxies pid with tempfileobj := some nm }
            fs := updF s.fs nm (some [])
            created := s.created ++ [(pid, nm)] } with hs1
      have hm : matOutputs env (pid :: rest) j s =
          matOutputs env rest (j + 1) s1 := by
        simp [matOutputs, hmo, hs1]
      have hA1 : ∀ e ∈ s1.created, (s1.proxies e.1).tempfileobj = some e.2 := by
        intro e he
        rcases List.mem_append.mp he with h | h
        · have hne : e.1 ≠ pid := by
            intro hcontra
            exact hpid0 (hcontra ▸ List.mem_map_of_mem Prod.fst h)
          show (updP s.proxies pid _ e.1).tempfileobj = some e.2
          rw [updP]
          simp [hne]
          exact h3 e h
        · simp at h
          subst h
          show (updP s.proxies pid _ pid).tempfileobj = some nm
          rw [updP]
          simp
      have hA2 : (s1.created.map Prod.fst).Nodup := by
        show ((s.created ++ [(pid, nm)]).map Prod.fst).Nodup
        rw [List.map_append, List.nodup_append]
        refine ⟨h4, List.nodup_singleton _, ?_⟩
        intro a ha hb
        simp at hb
        exact hpid0 (hb ▸ ha)
      have h2' : ∀ p ∈ rest, p ∉ s1.created.map Prod.fst := by
        intro p hp
        show p ∉ (s.created ++ [(pid, nm)]).map Prod.fst
        rw [List.map_append]
        intro hmem
        rcases List.mem_append.mp hmem with h | h
        · exact h2 p (List.mem_cons_of_mem _ hp) h
        · simp at h
          exact hpr (h ▸ hp)
      obtain ⟨i1, i2, i3, i4, i5, i6⟩ := ih (j + 1) s1 hndr h2' hA1 hA2
      rw [hm]
      refine ⟨i1, i2, ?_, ?_, i5, ?_⟩
      · intro e he
        rcases i3 e he with h | h
        · rcases List.mem_append.mp h with h' | h'
          · exact Or.inl h'
          · simp at h'
            subst h'
            exact Or.inr (List.mem_cons_self _ _)
        · exact Or.inr (List.mem_cons_of_mem _ h)
      · intro q hq
        have hq2 : q ∉ s1.created.map Prod.fst := by
          intro hcontra
          rcases List.mem_map.mp hcontra with ⟨e, he, hfst⟩
          exact hq (hfst ▸ List.mem_map_of_mem Prod.fst (i6 e he))
        have hqpid : q ≠ pid := by
          intro hcontra
          apply hq2
          rw [hcontra]
          exact List.mem_map_of_mem Prod.fst
            (List.mem_append.mpr (Or.inr (List.mem_singleton.mpr rfl)))
        rw [i4 q hq]
        show (updP s.proxies pid _ q).tempfileobj = _
        rw [updP]
        simp [hqpid]
      · intro e he
        exact i6 e (List.mem_append.mpr (Or.inl he))

/-- Argv construction never touches proxies, the created-file record, or
cleanup counters, in any branch. -/
lemma buildArgv_frame (cfgOpt : Option Config) (execpath : List Char)
    (extra : List (List Char)) (useconfig : UseConfig) (env : Env) (s : Sys) :
    (buildArgv cfgOpt execpath extra useconfig env s).2.proxies = s.proxies ∧
    (buildArgv cfgOpt execpath extra useconfig env s).2.created = s.created ∧
    (buildArgv cfgOpt execpath extra useconfig env s).2.cleanups = s.cleanups ∧
    (buildArgv cfgOpt execpath extra useconfig env s).2.spawns = s.spawns ∧
    (buildArgv cfgOpt execpath extra useconfig env s).2.readbacks = s.readbacks := by
  cases useconfig with
  | noConfig => simp [buildArgv]
  | file path =>
    cases cfgOpt with
    | none => simp [buildArgv]
    | some cfg =>
      by_cases hw : env.cfgWriteOk <;> simp [buildArgv, hw]
      cases hfc : getFileContents cfg s.proxies with
      | error e => simp
      | ok fc => simp
  | cmdline =>
    cases cfgOpt with
    | none => simp [buildArgv]
    | some cfg =>
      cases hca : getCmdlineArguments cfg s.proxies with
      | error e => simp [buildArgv, hca]
      | ok ca => simp [buildArgv, hca]

/-- The `try` body invariant: whatever the outcome, the created-file
record lists pairwise-distinct proxies of the invocation, each still
holding its recorded temp file; proxies outside the record keep their
`tempfileobj`; cleanup counters are untouched. -/
lemma runTry_inv (cfgOpt : Option Config) (inp outp : List Nat)
    (execpath : List Char) (extra : List (List Char))
    (validretcodes : List Int) (useconfig : UseConfig) (showoutput : Bool)
    (env : Env) (s : Sys)
    (hND : (inp ++ outp).Nodup) (hcre : s.created = []) :
    (∀ e ∈ (runTry cfgOpt inp outp execpath extra validretcodes useconfig
        showoutput env s).2.created,
      (((runTry cfgOpt inp outp execpath extra validretcodes useconfig
        showoutput env s).2.proxies e.1).tempfileobj = some e.2)) ∧
    (((runTry cfgOpt inp outp execpath extra validretcodes useconfig
        showoutput env s).2.created.map Prod.fst).Nodup) ∧
    (∀ e ∈ (runTry cfgOpt inp outp execpath extra validretcodes useconfig
        showoutput env s).2.created, e.1 ∈ inp ++ outp) ∧
    (∀ q, q ∉ (runTry cfgOpt inp outp execpath extra validretcodes useconfig
        showoutput env s).2.created.map Prod.fst →
      ((runTry cfgOpt inp outp execpath extra validretcodes useconfig
        showoutput env s).2.proxies q).tempfileobj =
        (s.proxies q).tempfileobj) ∧
    ((runTry cfgOpt inp outp execpath extra validretcodes useconfig
        showoutput env s).2.cleanups = s.cleanups) := by
  rw [List.nodup_append] at hND
  obtain ⟨hndI, hndO, hdisj⟩ := hND
  obtain ⟨m1a, m1b, m1c, m1d, m1e, m1f⟩ :=
    matInputs_inv env inp 0 s hndI
      (by intro p _; rw [hcre]; simp)
      (by intro e he; rw [hcre] at he; simp at he)
      (by rw [hcre]; simp)
  rcases hm1 : matInputs env inp 0 s with ⟨r1, s1⟩
  rw [hm1] at m1a m1b m1c m1d m1e m1f
  simp only at m1a m1b m1c m1d m1e m1f
  have hsub1 : ∀ e ∈ s1.created, e.1 ∈ inp := by
    intro e he
    rcases m1c e he with h | h
    · rw [hcre] at h; simp at h
    · exact h
  cases r1 with
  | error e1 =>
    have hrt : runTry cfgOpt inp outp execpath extra validretcodes useconfig
        showoutput env s = (.error e1, s1) := by
      simp [runTry, hm1]
    rw [hrt]
    exact ⟨m1a, m1b, fun e he => List.mem_append.mpr (Or.inl (hsub1 e he)),
      m1d, m1e⟩
  | ok u1 =>
    obtain ⟨m2a, m2b, m2c, m2d, m2e, m2f⟩ :=
      matOutputs_inv env outp 0 s1 hndO
        (by
          intro p hp hmem
          rcases List.mem_map.mp hmem with ⟨e, he, hfst⟩
          exact hdisj (hfst ▸ hsub1 e he) hp)
        m1a m1b
    rcases hm2 : matOutputs env outp 0 s1 with ⟨r2, s2⟩
    rw [hm2] at m2a m2b m2c m2d m2e m2f
    simp only at m2a m2b m2c m2d m2e m2f
    have hsub2 : ∀ e ∈ s2.created, e.1 ∈ inp ++ outp := by
      intro e he
      rcases m2c e he with h | h
      · exact List.mem_append.mpr (Or.inl (hsub1 e h))
      · exact List.mem_append.mpr (Or.inr h)
    have hd12 : ∀ q, q ∉ s2.created.map Prod.fst →
        (s2.proxies q).tempfileobj = (s.proxies q).tempfileobj := by
      intro q hq
      have hq1 : q ∉ s1.created.map Prod.fst := by
        intro hcontra
        rcases List.mem_map.mp hcontra with ⟨e, he, hfst⟩
        exact hq (hfst ▸ List.mem_map_of_mem Prod.fst (m2f e he))
      rw [m2d q hq, m1d q hq1]
    have hcl12 : s2.cleanups = s.cleanups := by rw [m2e, m1e]
    cases r2 with
    | error e2 =>
      have hrt : runTry cfgOpt inp outp execpath extra validretcodes useconfig
          showoutput env s = (.error e2, s2) := by
        simp [runTry, hm1, hm2]
      rw [hrt]
      exact ⟨m2a, m2b, hsub2, hd12, hcl12⟩
    | ok u2 =>
      obtain ⟨b1, b2, b3, b4, b5⟩ :=
        buildArgv_frame cfgOpt execpath extra useconfig env s2
      rcases hm3 : buildArgv cfgOpt execpath extra useconfig env s2 with ⟨r3, s3⟩
      rw [hm3] at b1 b2 b3 b4 b5
      simp only at b1 b2 b3 b4 b5
      cases r3 with
      | error e3 =>
        have hrt : runTry cfgOpt inp outp execpath extra validretcodes useconfig
            showoutput env s = (.error e3, s3) := by
          simp [runTry, hm1, hm2, hm3]
        rw [hrt]
        refine ⟨?_, ?_, ?_, ?_, ?_⟩
        · intro e he
          rw [b2] at he
          rw [b1]
          exact m2a e he
        · rw [b2]; exact m2b
        · intro e he
          rw [b2] at he
          exact hsub2 e he
        · intro q hq
          rw [b2] at hq
          rw [b1]
          exact hd12 q hq
        · rw [b3, hcl12]
      | ok argv =>
        -- after argv construction the code sets `lastinvocation`, spawns,
        -- runs the exit-code check and possibly the read-back loop; none
        -- of these touch `created` or cleanup counters, and read-back
        -- keeps every `tempfileobj`.
        have p3a : ∀ e ∈ s3.created, (s3.proxies e.1).tempfileobj = some e.2 := by
          intro e he
          rw [b2] at he
          rw [b1]
          exact m2a e he
        have p3b : (s3.created.map Prod.fst).Nodup := by
          rw [b2]; exact m2b
        have p3c : ∀ e ∈ s3.created, e.1 ∈ inp ++ outp := by
          intro e he
          rw [b2] at he
          exact hsub2 e he
        have p3d : ∀ q, q ∉ s3.created.map Prod.fst →
            (s3.proxies q).tempfileobj = (s.proxies q).tempfileobj := by
          intro q hq
          rw [b2] at hq
          rw [b1]
          exact hd12 q hq
        have p3e : s3.cleanups = s.cleanups := by rw [b3, hcl12]
        simp only [runTry, hm1, hm2, hm3]
        by_cases hpo : env.popenOk
        · rw [if_pos hpo]
          by_cases hrc : env.retcode ∈ validretcodes
          · rw [if_pos hrc]
            set s5 : Sys :=
              { proxies := s3.proxies
                fs := env.toolFs s3.fs
                counter := s3.counter
                cleanups := s3.cleanups
                created := s3.created
                spawns := s3.spawns + 1
                readbacks := s3.readbacks
                lastargv := some argv
                cfgWritten := s3.cfgWritten } with hs5
            obtain ⟨ra, rb, rc, rd, re, rf, rg, rh⟩ := readBacks_frame outp s5
            rcases hm6 : readBacks outp s5 with ⟨r6, s6⟩
            rw [hm6] at ra rb rc rd re
            simp only at ra rb rc rd re
            have p6a : ∀ e ∈ s6.created, (s6.proxies e.1).tempfileobj = some e.2 := by
              intro e he
              rw [re] at he
              rw [ra e.1]
              exact p3a e he
            have p6b : (s6.created.map Prod.fst).Nodup := by rw [re]; exact p3b
            have p6c : ∀ e ∈ s6.created, e.1 ∈ inp ++ outp := by
              intro e he
              rw [re] at he
              exact p3c e he
            have p6d : ∀ q, q ∉ s6.created.map Prod.fst →
                (s6.proxies q).tempfileobj = (s.proxies q).tempfileobj := by
              intro q hq
              rw [re] at hq
              rw [ra q]
              exact p3d q hq
            have p6e : s6.cleanups = s.cleanups := by rw [rd, p3e]
            cases r6 with
            | error e6 => exact ⟨p6a, p6b, p6c, p6d, p6e⟩
            | ok u6 => exact ⟨p6a, p6b, p6c, p6d, p6e⟩
          · rw [if_neg hrc]
            exact ⟨p3a, p3b, p3c, p3d, p3e⟩
        · rw [if_neg hpo]
          exact ⟨p3a, p3b, p3c, p3d, p3e⟩

/-- **C1, counterexample.**  The claim asserts that no temp file created
by a call survives it.  When one proxy object is bound to two config
items, the materialization loop visits it twice: the first temp file's
handle is overwritten by the second, the `finally` loop deletes only the
second, and the first file (`tempName 0`, holding the proxy content)
leaks. -/
theorem claim_C1_counterexample :
    (invokeTool (some c1cfg) "ex".data [] [0] .noConfig false okEnv
        c1sys).2.created = [(0, tempName 0), (0, tempName 1)] ∧
    (invokeTool (some c1cfg) "ex".data [] [0] .noConfig false okEnv
        c1sys).2.fs (tempName 0) = some "x".data ∧
    some "x".data ≠ (none : Option (List Char)) := by
  exact ⟨by rfl, by rfl, by decide⟩

/-- **C1, amended.**  Provided no proxy object is bound to more than one
configuration item (the created records are per-proxy unique) and every
proxy starts the call with no temp file, then for every outcome —
valid exit code, invalid exit code, or an exception injected during
materialization, config-file writing or process start — every proxy of
the call ends with `tempfileobj` cleared, every temp file created by the
call is deleted, and each proxy's cleanup ran exactly as often as a temp
file was created for it (once if materialized, never otherwise). -/
theorem claim_C1 (cfg : Config) (execpath : List Char)
    (extra : List (List Char)) (validretcodes : List Int)
    (useconfig : UseConfig) (showoutput : Bool) (env : Env) (s0 : Sys)
    (hND : ((getProxies cfg).1 ++ (getProxies cfg).2).Nodup)
    (hclean : ∀ pid ∈ (getProxies cfg).1 ++ (getProxies cfg).2,
      (s0.proxies pid).tempfileobj = none) :
    (∀ pid ∈ (getProxies cfg).1 ++ (getProxies cfg).2,
      ((invokeTool (some cfg) execpath extra validretcodes useconfig
          showoutput env s0).2.proxies pid).tempfileobj = none) ∧
    (∀ e ∈ (invokeTool (some cfg) execpath extra validretcodes useconfig
        showoutput env s0).2.created,
      (invokeTool (some cfg) execpath extra validretcodes useconfig
          showoutput env s0).2.fs e.2 = none) ∧
    (∀ pid ∈ (getProxies cfg).1 ++ (getProxies cfg).2,
      (invokeTool (some cfg) execpath extra validretcodes useconfig
          showoutput env s0).2.cleanups pid =
        s0.cleanups pid +
          ((invokeTool (some cfg) execpath extra validretcodes useconfig
              showoutput env s0).2.created.map Prod.fst).count pid) := by
  obtain ⟨t1, t2, t3, t4, t5⟩ :=
    runTry_inv (some cfg) (getProxies cfg).1 (getProxies cfg).2 execpath extra
      validretcodes useconfig showoutput env { s0 with created := [] } hND rfl
  set sT := (runTry (some cfg) (getProxies cfg).1 (getProxies cfg).2 execpath
      extra validretcodes useconfig showoutput env
      { s0 with created := [] }).2 with hsT
  have hinv : invokeTool (some cfg) execpath extra validretcodes useconfig
      showoutput env s0 =
      ((runTry (some cfg) (getProxies cfg).1 (getProxies cfg).2 execpath
          extra validretcodes useconfig showoutput env
          { s0 with created := [] }).1,
       cleanupAll ((getProxies cfg).1 ++ (getProxies cfg).2) sT) := rfl
  rw [hinv]
  obtain ⟨cs1, cs2, cs3⟩ :=
    cleanupAll_spec ((getProxies cfg).1 ++ (getProxies cfg).2) sT hND
  obtain ⟨cf1, cf2, cf3, cf4, cf5, cf6, cf7, cf8, cf9, cf10⟩ :=
    cleanupAll_frame ((getProxies cfg).1 ++ (getProxies cfg).2) sT
  refine ⟨?_, ?_, ?_⟩
  · intro pid hpid
    exact cs1 pid hpid
  · intro e he
    rw [cf2] at he
    exact cs2 e.1 (t3 e he) e.2 (t1 e he)
  · intro pid hpid
    rw [cf2]
    rw [cs3 pid hpid, t5]
    show ({ s0 with created := ([] : List (Nat × List Char)) }).cleanups pid + _ =
      s0.cleanups pid + _
    by_cases hmem : pid ∈ sT.created.map Prod.fst
    · have hcnt : (sT.created.map Prod.fst).count pid = 1 :=
        List.count_eq_one_of_mem t2 hmem
      have htf : (sT.proxies pid).tempfileobj ≠ none := by
        rcases List.mem_map.mp hmem with ⟨e, he, hfst⟩
        rw [← hfst]
        rw [t1 e he]
        simp
      rw [hcnt, if_neg htf]
    · have hcnt : (sT.created.map Prod.fst).count pid = 0 :=
        List.count_eq_zero_of_not_mem hmem
      have htf : (sT.proxies pid).tempfileobj = none := by
        rw [t4 pid hmem]
        exact hclean pid hpid
      rw [hcnt, if_pos htf]

/-- Witness for C1: a two-item store binding two *distinct* input
proxies, run straight through with exit code 0 from a pristine state. -/
theorem claim_C1_witness :
    (∀ pid ∈ (getProxies
        { items := ["A".data, "B".data]
          settings := updD (updD (fun _ => none) "A".data (.pin 0)) "B".data
            (.pin 1)
          comments := fun _ => none
          extras := fun _ => none }).1 ++ (getProxies
        { items := ["A".data, "B".data]
          settings := updD (updD (fun _ => none) "A".data (.pin 0)) "B".data
            (.pin 1)
          comments := fun _ => none
          extras := fun _ => none }).2,
      ((invokeTool (some
        { items := ["A".data, "B".data]
          settings := updD (updD (fun _ => none) "A".data (.pin 0)) "B".data
            (.pin 1)
          comments := fun _ => none
          extras := fun _ => none }) "ex".data [] [0] .noConfig false okEnv
          c1sys).2.proxies pid).tempfileobj = none) ∧
    (∀ e ∈ (invokeTool (some
        { items := ["A".data, "B".data]
          settings := updD (updD (fun _ => none) "A".data (.pin 0)) "B".data
            (.pin 1)
          comments := fun _ => none
          extras := fun _ => none }) "ex".data [] [0] .noConfig false okEnv
        c1sys).2.created,
      (invokeTool (some
        { items := ["A".data, "B".data]
          settings := updD (updD (fun _ => none) "A".data (.pin 0)) "B".data
            (.pin 1)
          comments := fun _ => none
          extras := fun _ => none }) "ex".data [] [0] .noConfig false okEnv
          c1sys).2.fs e.2 = none) ∧
    (∀ pid ∈ (getProxies
        { items := ["A".data, "B".data]
          settings := updD (updD (fun _ => none) "A".data (.pin 0)) "B".data
            (.pin 1)
          comments := fun _ => none
          extras := fun _ => none }).1 ++ (getProxies
        { items := ["A".data, "B".data]
          settings := updD (updD (fun _ => none) "A".data (.pin 0)) "B".data
            (.pin 1)
          comments := fun _ => none
          extras := fun _ => none }).2,
      (invokeTool (some
        { items := ["A".data, "B".data]
          settings := updD (updD (fun _ => none) "A".data (.pin 0)) "B".data
            (.pin 1)
          comments := fun _ => none
          extras := fun _ => none }) "ex".data [] [0] .noConfig false okEnv
          c1sys).2.cleanups pid =
        c1sys.cleanups pid +
          ((invokeTool (some
            { items := ["A".data, "B".data]
              settings := updD (updD (fun _ => none) "A".data (.pin 0))
                "B".data (.pin 1)
              comments := fun _ => none
              extras := fun _ => none }) "ex".data [] [0] .noConfig false okEnv
              c1sys).2.created.map Prod.fst).count pid) :=
  claim_C1 _ "ex".data [] [0] .noConfig false okEnv c1sys (by decide)
    (by intro pid hpid; rfl)

/-- With no injected failures and all contents present, the input loop
succeeds and produces exactly `matStateIn`. -/
lemma matInputs_ok (env : Env) (hok : ∀ i, env.matIn i = .ok) :
    ∀ (pids : List Nat) (i : Nat) (s : Sys),
    (∀ pid ∈ pids, ((s.proxies pid).content).isSome = true) →
    matInputs env pids i s = (.ok (), matStateIn pids s) := by
  intro pids
  induction pids with
  | nil => intro i s _; rfl
  | cons pid rest ih =>
    intro i s hcont
    have hc : ((s.proxies pid).content).isSome = true :=
      hcont pid (List.mem_cons_self _ _)
    cases hcv : (s.proxies pid).content with
    | none => rw [hcv] at hc; simp at hc
    | some c =>
      have hstep : matInputs env (pid :: rest) i s =
          matInputs env rest (i + 1)
            { s with
                counter := s.counter + 1
                proxies := updP s.proxies pid
                  { s.proxies pid with tempfileobj := some (tempName s.counter) }
                fs := updF (updF s.fs (tempName s.counter) (some []))
                  (tempName s.counter) (some c)
                created := s.created ++ [(pid, tempName s.counter)] } := by
        simp [matInputs, hok i, hcv]
      have hmid : matStateIn (pid :: rest) s =
          matStateIn rest
            { s with
                counter := s.counter + 1
                proxies := updP s.proxies pid
                  { s.proxies pid with tempfileobj := some (tempName s.counter) }
                fs := updF (updF s.fs (tempName s.counter) (some []))
                  (tempName s.counter) (some c)
                created := s.created ++ [(pid, tempName s.counter)] } := by
        simp [matStateIn, hcv]
      rw [hstep, hmid]
      apply ih
      intro q hq
      show ((updP s.proxies pid _ q).content).isSome = true
      rw [updP]
      by_cases hqe : q = pid
      · simp [hqe, hcv]
      · simp [hqe]
        exact hcont q (List.mem_cons_of_mem _ hq)

/-- With no injected failures the output loop succeeds and produces
exactly `matStateOut`. -/
lemma matOutputs_ok (env : Env) (hok : ∀ j, env.matOut j = true) :
    ∀ (pids : List Nat) (j : Nat) (s : Sys),
    matOutputs env pids j s = (.ok (), matStateOut pids s) := by
  intro pids
  induction pids with
  | nil => intro j s; rfl
  | cons pid rest ih =>
    intro j s
    have hstep : matOutputs env (pid :: rest) j s =
        matOutputs env rest (j + 1)
          { s with
              counter := s.counter + 1
              proxies := updP s.proxies pid
                { s.proxies pid with tempfileobj := some (tempName s.counter) }
              fs := updF s.fs (tempName s.counter) (some [])
              created := s.created ++ [(pid, tempName s.counter)] } := by
      simp [matOutputs, hok j]
    rw [hstep, ih]
    rfl

/-- Pointwise facts about `matStateIn`: contents untouched, existing
files kept, ghost fields untouched. -/
lemma matStateIn_props : ∀ (pids : List Nat) (s : Sys),
    (∀ q, ((matStateIn pids s).proxies q).content = (s.proxies q).content) ∧
    (∀ nm, (s.fs nm).isSome = true →
      ((matStateIn pids s).fs nm).isSome = true) ∧
    (matStateIn pids s).spawns = s.spawns ∧
    (matStateIn pids s).readbacks = s.readbacks ∧
    (matStateIn pids s).lastargv = s.lastargv ∧
    (matStateIn pids s).cfgWritten = s.cfgWritten := by
  intro pids
  induction pids with
  | nil => intro s; exact ⟨fun q => rfl, fun nm h => h, rfl, rfl, rfl, rfl⟩
  | cons pid rest ih =>
    intro s
    set s1 : Sys :=
      { s with
          counter := s.counter + 1
          proxies := updP s.proxies pid
            { s.proxies pid with tempfileobj := some (tempName s.counter) }
          fs := updF (updF s.fs (tempName s.counter) (some []))
            (tempName s.counter)
            (some ((s.proxies pid).content.getD []))
          created := s.created ++ [(pid, tempName s.counter)] } with hs1
    obtain ⟨i1, i2, i3, i4, i5, i6⟩ := ih s1
    have hstep : matStateIn (pid :: rest) s = matStateIn rest s1 := rfl
    rw [hstep]
    refine ⟨?_, ?_, i3, i4, i5, i6⟩
    · intro q
      rw [i1 q]
      show (updP s.proxies pid _ q).content = _
      rw [updP]
      by_cases hq : q = pid <;> simp [hq]
    · intro nm h
      apply i2
      show ((updF (updF s.fs (tempName s.counter) (some []))
        (tempName s.counter) _ nm)).isSome = true
      rw [updF]
      by_cases he : nm = tempName s.counter <;> simp [he, updF]
      exact h

/-- Pointwise facts about `matStateOut`: additionally, every looped-over
proxy ends up with a temp file whose filesystem entry exists. -/
lemma matStateOut_props : ∀ (pids : List Nat) (s : Sys),
    (∀ q, ((matStateOut pids s).proxies q).content = (s.proxies q).content) ∧
    (∀ nm, (s.fs nm).isSome = true →
      ((matStateOut pids s).fs nm).isSome = true) ∧
    (∀ pid ∈ pids, ∃ nm,
      ((matStateOut pids s).proxies pid).tempfileobj = some nm ∧
      ((matStateOut pids s).fs nm).isSome = true) ∧
    (∀ q, q ∉ pids → (matStateOut pids s).proxies q = s.proxies q) ∧
    (matStateOut pids s).spawns = s.spawns ∧
    (matStateOut pids s).readbacks = s.readbacks ∧
    (matStateOut pids s).lastargv = s.lastargv ∧
    (matStateOut pids s).cfgWritten = s.cfgWritten := by
  intro pids
  induction pids with
  | nil =>
    intro s
    exact ⟨fun q => rfl, fun nm h => h, by simp, fun q _ => rfl, rfl, rfl,
      rfl, rfl⟩
  | cons pid rest ih =>
    intro s
    set s1 : Sys :=
      { s with
          counter := s.counter + 1
          proxies := updP s.proxies pid
            { s.proxies pid with tempfileobj := some (tempName s.counter) }
          fs := updF s.fs (tempName s.counter) (some [])
          created := s.created ++ [(pid, tempName s.counter)] } with hs1
    obtain ⟨i1, i2, i3, i4, i5, i6, i7, i8⟩ := ih s1
    have hstep : matStateOut (pid :: rest) s = matStateOut rest s1 := rfl
    rw [hstep]
    refine ⟨?_, ?_, ?_, ?_, i5, i6, i7, i8⟩
    · intro q
      rw [i1 q]
      show (updP s.proxies pid _ q).content = _
      rw [updP]
      by_cases hq : q = pid <;> simp [hq]
    · intro nm h
      apply i2
      show ((updF s.fs (tempName s.counter) (some []) nm)).isSome = true
      rw [updF]
      by_cases he : nm = tempName s.counter <;> simp [he]
      exact h
    · intro q hq
      by_cases hqr : q ∈ rest
      · exact i3 q hqr
      · rcases List.mem_cons.mp hq with h | h
        · subst h
          refine ⟨tempName s.counter, ?_, ?_⟩
          · rw [i4 q hqr]
            show (updP s.proxies q _ q).tempfileobj = _
            rw [updP]
            simp
          · apply i2
            show ((updF s.fs (tempName s.counter) (some [])
              (tempName s.counter))).isSome = true
            rw [updF]
            simp
        · exact absurd h hqr
    · intro q hq
      have hq1 : q ≠ pid := fun h => hq (h ▸ List.mem_cons_self _ _)
      have hq2 : q ∉ rest := fun h => hq (List.mem_cons_of_mem _ h)
      rw [i4 q hq2]
      show updP s.proxies pid _ q = _
      rw [updP]
      simp [hq1]

/-- Argv construction never deletes a file. -/
lemma buildArgv_fs_mono (cfgOpt : Option Config) (execpath : List Char)
    (extra : List (List Char)) (useconfig : UseConfig) (env : Env) (s : Sys) :
    ∀ nm, (s.fs nm).isSome = true →
      ((buildArgv cfgOpt execpath extra useconfig env s).2.fs nm).isSome = true := by
  intro nm h
  cases useconfig with
  | noConfig => exact h
  | file path =>
    cases cfgOpt with
    | none => exact h
    | some cfg =>
      by_cases hw : env.cfgWriteOk <;> simp [buildArgv, hw]
      · cases hfc : getFileContents cfg s.proxies with
        | error e => simp; exact h
        | ok fc =>
          simp [updF]
          by_cases he : nm = path <;> simp [he]
          exact h
      · exact h
  | cmdline =>
    cases cfgOpt with
    | none => exact h
    | some cfg =>
      cases hca : getCmdlineArguments cfg s.proxies with
      | error e => simp [buildArgv, hca]; exact h
      | ok ca => simp [buildArgv, hca]; exact h

/-- When every output proxy holds a temp file whose filesystem entry
exists, the read-back loop succeeds, logs each proxy in order, and leaves
every looped-over proxy with populated content. -/
lemma readBacks_ok : ∀ (l : List Nat) (s : Sys),
    (∀ pid ∈ l, ∃ nm, (s.proxies pid).tempfileobj = some nm ∧
      (s.fs nm).isSome = true) →
    (readBacks l s).1 = .ok () ∧
    (readBacks l s).2.readbacks = s.readbacks ++ l ∧
    (∀ pid ∈ l, (((readBacks l s).2.proxies pid).content).isSome = true) ∧
    (∀ pid, ((s.proxies pid).content).isSome = true →
      (((readBacks l s).2.proxies pid).content).isSome = true) := by
  intro l
  induction l with
  | nil => intro s _; exact ⟨rfl, by simp [readBacks], by simp, fun pid h => h⟩
  | cons pid rest ih =>
    intro s hmat
    obtain ⟨nm, htf, hfs⟩ := hmat pid (List.mem_cons_self _ _)
    cases hval : s.fs nm with
    | none => rw [hval] at hfs; simp at hfs
    | some d =>
      set s' : Sys :=
        { s with
            proxies := updP s.proxies pid
              { (s.proxies pid) with content := some d }
            readbacks := s.readbacks ++ [pid] } with hs'
      have hstep : readBacks (pid :: rest) s = readBacks rest s' := by
        simp [readBacks, htf, hval, hs']
      have htf' : ∀ q, (s'.proxies q).tempfileobj = (s.proxies q).tempfileobj := by
        intro q
        show (updP s.proxies pid _ q).tempfileobj = _
        rw [updP]
        by_cases hq : q = pid <;> simp [hq, htf]
      obtain ⟨j1, j2, j3, j4⟩ := ih s' (by
        intro q hq
        obtain ⟨nm', htf2, hfs2⟩ := hmat q (List.mem_cons_of_mem _ hq)
        exact ⟨nm', by rw [htf' q]; exact htf2, hfs2⟩)
      rw [hstep]
      refine ⟨j1, ?_, ?_, ?_⟩
      · rw [j2]
        show (s.readbacks ++ [pid]) ++ rest = _
        simp
      · intro q hq
        rcases List.mem_cons.mp hq with h | h
        · subst h
          apply j4
          show ((updP s.proxies q _ q).content).isSome = true
          rw [updP]
          simp
        · exact j3 q h
      · intro q hcont
        apply j4
        show ((updP s.proxies pid _ q).content).isSome = true
        rw [updP]
        by_cases hq : q = pid <;> simp [hq]
        exact hcont

/-- Once both materialization loops and argv construction succeed, the
recorded `lastinvocation` is exactly the constructed argv and the
config-file ghost is whatever the construction left, on every later path
(process failure, bad exit code, read-back, success). -/
lemma runTry_ghost (cfgOpt : Option Config) (inp outp : List Nat)
    (execpath : List Char) (extra : List (List Char))
    (validretcodes : List Int) (useconfig : UseConfig) (showoutput : Bool)
    (env : Env) (s s1 s2 s3 : Sys) (argv : List (List Char))
    (hIn : matInputs env inp 0 s = (.ok (), s1))
    (hOut : matOutputs env outp 0 s1 = (.ok (), s2))
    (hB : buildArgv cfgOpt execpath extra useconfig env s2 = (.ok argv, s3)) :
    (runTry cfgOpt inp outp execpath extra validretcodes useconfig
      showoutput env s).2.lastargv = some argv ∧
    (runTry cfgOpt inp outp execpath extra validretcodes useconfig
      showoutput env s).2.cfgWritten = s3.cfgWritten ∧
    (runTry cfgOpt inp outp execpath extra validretcodes useconfig
      showoutput env s).2.spawns =
        s3.spawns + (if env.popenOk then 1 else 0) := by
  simp only [runTry, hIn, hOut, hB]
  by_cases hpo : env.popenOk
  · rw [if_pos hpo]
    by_cases hrc : env.retcode ∈ validretcodes
    · rw [if_pos hrc]
      set s5 : Sys :=
        { proxies := s3.proxies
          fs := env.toolFs s3.fs
          counter := s3.counter
          cleanups := s3.cleanups
          created := s3.created
          spawns := s3.spawns + 1
          readbacks := s3.readbacks
          lastargv := some argv
          cfgWritten := s3.cfgWritten } with hs5
      obtain ⟨ra, rb, rc, rd, re, rf, rg, rh⟩ := readBacks_frame outp s5
      rcases hm6 : readBacks outp s5 with ⟨r6, s6⟩
      rw [hm6] at rf rg rh
      simp only at rf rg rh
      cases r6 with
      | error e6 => exact ⟨rg, rh, by rw [rf]; simp [hpo]⟩
      | ok u6 => exact ⟨rg, rh, by rw [rf]; simp [hpo]⟩
    · rw [if_neg hrc]
      exact ⟨rfl, rfl, by simp [hpo]⟩
  · rw [if_neg hpo]
    exact ⟨rfl, rfl, by simp [hpo]⟩

/-- **C5, counterexample.**  In the command-line branch the code calls
`arguments.extend(self.cfg.get_cmdline_arguments())` on the *caller's*
argument list, so the extra arguments come **before** the rendered
options, not after them as the claim states.  With extra argument `X` on
a store `{A: "1"}` the constructed argv is `[ex, X, -A, 1]`, not
`[ex, -A, 1, X]`. -/
theorem claim_C5_counterexample :
    (invokeTool (some c5cfg) "ex".data ["X".data] [0] .cmdline false okEnv
        zeroSys).2.lastargv =
      some ["ex".data, "X".data, "-A".data, "1".data] ∧
    some ["ex".data, "X".data, "-A".data, "1".data] ≠
      some ["ex".data, "-A".data, "1".data, "X".data] := by
  exact ⟨by rfl, by decide⟩

/-- **C5, amended.**  For every invocation whose materialization succeeds,
the constructed argv begins with the executable path.  If `useconfig` is
a path string, the store's `get_file_contents()` is written to that path
and argv is `executable :: -c :: path :: extra_args`.  If `useconfig` is
`True`, argv is `executable :: extra_args ++ command-line arguments` —
the caller's extra arguments come **before** the rendered options, not
after them.  With `useconfig=False` argv is `executable :: extra_args`. -/
theorem claim_C5 (cfg : Config) (execpath : List Char)
    (extra : List (List Char)) (validretcodes : List Int) (showoutput : Bool)
    (env : Env) (s0 : Sys)
    (hmatI : ∀ i, env.matIn i = .ok)
    (hmatO : ∀ j, env.matOut j = true)
    (hcont : ∀ pid ∈ (getProxies cfg).1,
      ((s0.proxies pid).content).isSome = true) :
    (∀ path fc, env.cfgWriteOk = true →
      getFileContents cfg (midSys cfg s0).proxies = .ok fc →
      (invokeTool (some cfg) execpath extra validretcodes (.file path)
          showoutput env s0).2.lastargv =
        some (execpath :: "-c".data :: path :: extra) ∧
      (invokeTool (some cfg) execpath extra validretcodes (.file path)
          showoutput env s0).2.cfgWritten = some (path, fc)) ∧
    (∀ ca, getCmdlineArguments cfg (midSys cfg s0).proxies = .ok ca →
      (invokeTool (some cfg) execpath extra validretcodes .cmdline
          showoutput env s0).2.lastargv = some (execpath :: (extra ++ ca))) ∧
    (invokeTool (some cfg) execpath extra validretcodes .noConfig
        showoutput env s0).2.lastargv = some (execpath :: extra) := by
  have hIn : matInputs env (getProxies cfg).1 0 { s0 with created := [] } =
      (.ok (), matStateIn (getProxies cfg).1 { s0 with created := [] }) :=
    matInputs_ok env hmatI _ 0 _ hcont
  have hOut : matOutputs env (getProxies cfg).2 0
        (matStateIn (getProxies cfg).1 { s0 with created := [] }) =
      (.ok (), matStateOut (getProxies cfg).2
        (matStateIn (getProxies cfg).1 { s0 with created := [] })) :=
    matOutputs_ok env hmatO _ 0 _
  refine ⟨?_, ?_, ?_⟩
  · intro path fc hw hfc
    have hfc' : getFileContents cfg (matStateOut (getProxies cfg).2
        (matStateIn (getProxies cfg).1 { s0 with created := [] })).proxies =
        .ok fc := hfc
    have hB : buildArgv (some cfg) execpath extra (.file path) env
        (matStateOut (getProxies cfg).2
          (matStateIn (getProxies cfg).1 { s0 with created := [] })) =
        (.ok (execpath :: "-c".data :: path :: extra),
         { matStateOut (getProxies cfg).2
            (matStateIn (getProxies cfg).1 { s0 with created := [] }) with
            fs := updF (matStateOut (getProxies cfg).2
              (matStateIn (getProxies cfg).1 { s0 with created := [] })).fs
              path (some fc)
            cfgWritten := some (path, fc) }) := by
      simp [buildArgv, hw, hfc']
    obtain ⟨g1, g2, g3⟩ := runTry_ghost (some cfg) (getProxies cfg).1
      (getProxies cfg).2 execpath extra validretcodes (.file path) showoutput
      env { s0 with created := [] } _ _ _ _ hIn hOut hB
    obtain ⟨cf1, cf2, cf3, cf4, cf5, cf6, cf7, cf8, cf9, cf10⟩ :=
      cleanupAll_frame ((getProxies cfg).1 ++ (getProxies cfg).2)
        ((runTry (some cfg) (getProxies cfg).1 (getProxies cfg).2 execpath
          extra validretcodes (.file path) showoutput env
          { s0 with created := [] }).2)
    exact ⟨by rw [show (invokeTool (some cfg) execpath extra validretcodes
        (.file path) showoutput env s0).2 = cleanupAll
          ((getProxies cfg).1 ++ (getProxies cfg).2)
          ((runTry (some cfg) (getProxies cfg).1 (getProxies cfg).2 execpath
            extra validretcodes (.file path) showoutput env
            { s0 with created := [] }).2) from rfl, cf6, g1],
      by rw [show (invokeTool (some cfg) execpath extra validretcodes
        (.file path) showoutput env s0).2 = cleanupAll
          ((getProxies cfg).1 ++ (getProxies cfg).2)
          ((runTry (some cfg) (getProxies cfg).1 (getProxies cfg).2 execpath
            extra validretcodes (.file path) showoutput env
            { s0 with created := [] }).2) from rfl, cf7, g2]⟩
  · intro ca hca
    have hca' : getCmdlineArguments cfg (matStateOut (getProxies cfg).2
        (matStateIn (getProxies cfg).1 { s0 with created := [] })).proxies =
        .ok ca := hca
    have hB : buildArgv (some cfg) execpath extra .cmdline env
        (matStateOut (getProxies cfg).2
          (matStateIn (getProxies cfg).1 { s0 with created := [] })) =
        (.ok (execpath :: (extra ++ ca)),
         matStateOut (getProxies cfg).2
          (matStateIn (getProxies cfg).1 { s0 with created := [] })) := by
      simp [buildArgv, hca']
    obtain ⟨g1, g2, g3⟩ := runTry_ghost (some cfg) (getProxies cfg).1
      (getProxies cfg).2 execpath extra validretcodes .cmdline showoutput
      env { s0 with created := [] } _ _ _ _ hIn hOut hB
    obtain ⟨cf1, cf2, cf3, cf4, cf5, cf6, cf7, cf8, cf9, cf10⟩ :=
      cleanupAll_frame ((getProxies cfg).1 ++ (getProxies cfg).2)
        ((runTry (some cfg) (getProxies cfg).1 (getProxies cfg).2 execpath
          extra validretcodes .cmdline showoutput env
          { s0 with created := [] }).2)
    rw [show (invokeTool (some cfg) execpath extra validretcodes .cmdline
        showoutput env s0).2 = cleanupAll
          ((getProxies cfg).1 ++ (getProxies cfg).2)
          ((runTry (some cfg) (getProxies cfg).1 (getProxies cfg).2 execpath
            extra validretcodes .cmdline showoutput env
            { s0 with created := [] }).2) from rfl, cf6, g1]
  · have hB : buildArgv (some cfg) execpath extra .noConfig env
        (matStateOut (getProxies cfg).2
          (matStateIn (getProxies cfg).1 { s0 with created := [] })) =
        (.ok (execpath :: extra),
         matStateOut (getProxies cfg).2
          (matStateIn (getProxies cfg).1 { s0 with created := [] })) := rfl
    obtain ⟨g1, g2, g3⟩ := runTry_ghost (some cfg) (getProxies cfg).1
      (getProxies cfg).2 execpath extra validretcodes .noConfig showoutput
      env { s0 with created := [] } _ _ _ _ hIn hOut hB
    obtain ⟨cf1, cf2, cf3, cf4, cf5, cf6, cf7, cf8, cf9, cf10⟩ :=
      cleanupAll_frame ((getProxies cfg).1 ++ (getProxies cfg).2)
        ((runTry (some cfg) (getProxies cfg).1 (getProxies cfg).2 execpath
          extra validretcodes .noConfig showoutput env
          { s0 with created := [] }).2)
    rw [show (invokeTool (some cfg) execpath extra validretcodes .noConfig
        showoutput env s0).2 = cleanupAll
          ((getProxies cfg).1 ++ (getProxies cfg).2)
          ((runTry (some cfg) (getProxies cfg).1 (getProxies cfg).2 execpath
            extra validretcodes .noConfig showoutput env
            { s0 with created := [] }).2) from rfl, cf6, g1]

/-- Witness for C5 on the literal store `{A: "1"}` with extra argument
`X`: all three `useconfig` modes. -/
theorem claim_C5_witness :
    ((invokeTool (some c5cfg) "ex".data ["X".data] [0]
        (.file "cf".data) false okEnv zeroSys).2.lastargv =
      some ["ex".data, "-c".data, "cf".data, "X".data] ∧
     (invokeTool (some c5cfg) "ex".data ["X".data] [0]
        (.file "cf".data) false okEnv zeroSys).2.cfgWritten =
      some ("cf".data, "A 1".data)) ∧
    (invokeTool (some c5cfg) "ex".data ["X".data] [0] .cmdline false okEnv
        zeroSys).2.lastargv =
      some ["ex".data, "X".data, "-A".data, "1".data] ∧
    (invokeTool (some c5cfg) "ex".data ["X".data] [0] .noConfig false okEnv
        zeroSys).2.lastargv = some ["ex".data, "X".data] := by
  obtain ⟨w1, w2, w3⟩ := claim_C5 c5cfg "ex".data ["X".data] [0] false okEnv
    zeroSys (fun i => rfl) (fun j => rfl) (by intro pid h; simp [c5cfg, getProxies, updD] at h)
  exact ⟨w1 "cf".data "A 1".data rfl (by rfl), w2 ["-A".data, "1".data] (by rfl), w3⟩

/-- **C3** (confirmed).  For every invocation that reaches the child
process (materialization and argv construction succeed, the process
starts, output captured): if the exit code is not in `validretcodes`, the
call raises `AstromaticError` carrying the captured stderr (and stdout)
verbatim, no read-back happens and no output-proxy content changes; if
the exit code is valid, the call returns the captured streams and every
output proxy is read back (logged once, in order, content populated).
Exactly one child process is spawned either way — no retry. -/
theorem claim_C3 (cfg : Config) (execpath : List Char)
    (extra : List (List Char)) (validretcodes : List Int)
    (useconfig : UseConfig) (env : Env) (s0 : Sys)
    (hmatI : ∀ i, env.matIn i = .ok)
    (hmatO : ∀ j, env.matOut j = true)
    (hcont : ∀ pid ∈ (getProxies cfg).1,
      ((s0.proxies pid).content).isSome = true)
    (hbuild : ∃ argv s3, buildArgv (some cfg) execpath extra useconfig env
      (midSys cfg s0) = (.ok argv, s3))
    (hpo : env.popenOk = true)
    (htool : ∀ f nm, (f nm).isSome = true → (env.toolFs f nm).isSome = true) :
    (env.retcode ∉ validretcodes →
      (invokeTool (some cfg) execpath extra validretcodes useconfig false
          env s0).1 =
        .error (.astromaticError execpath env.retcode (some env.stderrS)
          (some env.stdoutS)) ∧
      (invokeTool (some cfg) execpath extra validretcodes useconfig false
          env s0).2.readbacks = s0.readbacks ∧
      (∀ pid, ((invokeTool (some cfg) execpath extra validretcodes useconfig
          false env s0).2.proxies pid).content = (s0.proxies pid).content)) ∧
    (env.retcode ∈ validretcodes →
      (invokeTool (some cfg) execpath extra validretcodes useconfig false
          env s0).1 = .ok (some env.stdoutS, some env.stderrS) ∧
      (invokeTool (some cfg) execpath extra validretcodes useconfig false
          env s0).2.readbacks = s0.readbacks ++ (getProxies cfg).2 ∧
      (∀ pid ∈ (getProxies cfg).2,
        (((invokeTool (some cfg) execpath extra validretcodes useconfig false
          env s0).2.proxies pid).content).isSome = true)) ∧
    (invokeTool (some cfg) execpath extra validretcodes useconfig false
        env s0).2.spawns = s0.spawns + 1 := by
  have hIn : matInputs env (getProxies cfg).1 0 { s0 with created := [] } =
      (.ok (), matStateIn (getProxies cfg).1 { s0 with created := [] }) :=
    matInputs_ok env hmatI _ 0 _ hcont
  have hOut : matOutputs env (getProxies cfg).2 0
        (matStateIn (getProxies cfg).1 { s0 with created := [] }) =
      (.ok (), matStateOut (getProxies cfg).2
        (matStateIn (getProxies cfg).1 { s0 with created := [] })) :=
    matOutputs_ok env hmatO _ 0 _
  obtain ⟨argv, s3, hB⟩ := hbuild
  have hB' : buildArgv (some cfg) execpath extra useconfig env
      (matStateOut (getProxies cfg).2
        (matStateIn (getProxies cfg).1 { s0 with created := [] })) =
      (.ok argv, s3) := hB
  obtain ⟨n1, n2, n3, n4, n5, n6⟩ :=
    matStateIn_props (getProxies cfg).1 { s0 with created := [] }
  obtain ⟨o1, o2, o3, o4, o5, o6, o7, o8⟩ :=
    matStateOut_props (getProxies cfg).2
      (matStateIn (getProxies cfg).1 { s0 with created := [] })
  obtain ⟨b1, b2, b3, b4, b5⟩ := buildArgv_frame (some cfg) execpath extra
    useconfig env (matStateOut (getProxies cfg).2
      (matStateIn (getProxies cfg).1 { s0 with created := [] }))
  rw [hB'] at b1 b2 b3 b4 b5
  simp only at b1 b2 b3 b4 b5
  have hfsm := buildArgv_fs_mono (some cfg) execpath extra useconfig env
    (matStateOut (getProxies cfg).2
      (matStateIn (getProxies cfg).1 { s0 with created := [] }))
  rw [hB'] at hfsm
  simp only at hfsm
  -- facts transported to s3
  have hMcontent : ∀ q, (s3.proxies q).content = (s0.proxies q).content := by
    intro q
    rw [b1, o1 q, n1 q]
  have hMreadb : s3.readbacks = s0.readbacks := by rw [b5, o6, n4]
  have hMspawns : s3.spawns = s0.spawns := by rw [b4, o5, n3]
  have hMmat : ∀ pid ∈ (getProxies cfg).2, ∃ nm,
      (s3.proxies pid).tempfileobj = some nm ∧
      ((env.toolFs s3.fs) nm).isSome = true := by
    intro pid hpid
    obtain ⟨nm, htf, hfs⟩ := o3 pid hpid
    exact ⟨nm, by rw [b1]; exact htf, htool _ _ (hfsm nm hfs)⟩
  obtain ⟨g1, g2, g3⟩ := runTry_ghost (some cfg) (getProxies cfg).1
    (getProxies cfg).2 execpath extra validretcodes useconfig false
    env { s0 with created := [] } _ _ _ _ hIn hOut hB'
  obtain ⟨cf1, cf2, cf3, cf4, cf5, cf6, cf7, cf8, cf9, cf10⟩ :=
    cleanupAll_frame ((getProxies cfg).1 ++ (getProxies cfg).2)
      ((runTry (some cfg) (getProxies cfg).1 (getProxies cfg).2 execpath
        extra validretcodes useconfig false env { s0 with created := [] }).2)
  have hr1 : (invokeTool (some cfg) execpath extra validretcodes useconfig
      false env s0).1 = (runTry (some cfg) (getProxies cfg).1
        (getProxies cfg).2 execpath extra validretcodes useconfig false env
        { s0 with created := [] }).1 := rfl
  have hr2 : (invokeTool (some cfg) execpath extra validretcodes useconfig
      false env s0).2 = cleanupAll ((getProxies cfg).1 ++ (getProxies cfg).2)
        ((runTry (some cfg) (getProxies cfg).1 (getProxies cfg).2 execpath
          extra validretcodes useconfig false env
          { s0 with created := [] }).2) := rfl
  refine ⟨?_, ?_, ?_⟩
  · intro hrc
    have hrun : runTry (some cfg) (getProxies cfg).1 (getProxies cfg).2
        execpath extra validretcodes useconfig false env
        { s0 with created := [] } =
        (.error (.astromaticError execpath env.retcode (some env.stderrS)
          (some env.stdoutS)),
         { proxies := s3.proxies
           fs := env.toolFs s3.fs
           counter := s3.counter
           cleanups := s3.cleanups
           created := s3.created
           spawns := s3.spawns + 1
           readbacks := s3.readbacks
           lastargv := some argv
           cfgWritten := s3.cfgWritten }) := by
      simp only [runTry, hIn, hOut, hB']
      rw [if_pos hpo, if_neg hrc]
      simp
    refine ⟨?_, ?_, ?_⟩
    · rw [hr1, hrun]
    · rw [hr2, cf5, hrun]
      exact hMreadb
    · intro pid
      rw [hr2, cf1 pid, hrun]
      exact hMcontent pid
  · intro hrc
    obtain ⟨k1, k2, k3, k4⟩ := readBacks_ok (getProxies cfg).2
      { proxies := s3.proxies
        fs := env.toolFs s3.fs
        counter := s3.counter
        cleanups := s3.cleanups
        created := s3.created
        spawns := s3.spawns + 1
        readbacks := s3.readbacks
        lastargv := some argv
        cfgWritten := s3.cfgWritten } hMmat
    rcases hm6 : readBacks (getProxies cfg).2
      { proxies := s3.proxies
        fs := env.toolFs s3.fs
        counter := s3.counter
        cleanups := s3.cleanups
        created := s3.created
        spawns := s3.spawns + 1
        readbacks := s3.readbacks
        lastargv := some argv
        cfgWritten := s3.cfgWritten } with ⟨r6, s6⟩
    rw [hm6] at k1 k2 k3 k4
    simp only at k1 k2 k3 k4
    cases r6 with
    | error e6 => simp at k1
    | ok u6 =>
      have hrun : runTry (some cfg) (getProxies cfg).1 (getProxies cfg).2
          execpath extra validretcodes useconfig false env
          { s0 with created := [] } =
          (.ok (some env.stdoutS, some env.stderrS), s6) := by
        simp only [runTry, hIn, hOut, hB']
        rw [if_pos hpo, if_pos hrc]
        rw [hm6]
        simp
      refine ⟨?_, ?_, ?_⟩
      · rw [hr1, hrun]
      · rw [hr2, cf5, hrun]
        show s6.readbacks = _
        rw [k2]
        show s3.readbacks ++ _ = _
        rw [hMreadb]
      · intro pid hpid
        rw [hr2, cf1 pid, hrun]
        exact k3 pid hpid
  · rw [hr2, cf4, g3, hMspawns, if_pos hpo]

/-- Witness for C3 on the literal store `{A: "1"}`: valid exit code 0
with `validretcodes = [0]`, plus the invalid-code branch via exit code 1
with the same valid set (second application at a failing environment). -/
theorem claim_C3_witness :
    ((invokeTool (some c5cfg) "ex".data [] [0] .noConfig false
        { okEnv with retcode := 1 } zeroSys).1 =
      .error (.astromaticError "ex".data 1 (some "err".data)
        (some "out".data))) ∧
    (invokeTool (some c5cfg) "ex".data [] [0] .noConfig false okEnv
        zeroSys).1 = .ok (some "out".data, some "err".data) ∧
    (invokeTool (some c5cfg) "ex".data [] [0] .noConfig false okEnv
        zeroSys).2.spawns = zeroSys.spawns + 1 := by
  have hbad := claim_C3 c5cfg "ex".data [] [0] .noConfig
    { okEnv with retcode := 1 } zeroSys (fun i => rfl) (fun j => rfl)
    (by intro pid h; simp [c5cfg, getProxies, updD] at h)
    ⟨["ex".data], midSys c5cfg zeroSys, rfl⟩ rfl
    (fun f nm h => h)
  have hgood := claim_C3 c5cfg "ex".data [] [0] .noConfig okEnv zeroSys
    (fun i => rfl) (fun j => rfl)
    (by intro pid h; simp [c5cfg, getProxies, updD] at h)
    ⟨["ex".data], midSys c5cfg zeroSys, rfl⟩ rfl
    (fun f nm h => h)
  exact ⟨(hbad.1 (by decide)).1, (hgood.2.1 (by decide)).1, hgood.2.2⟩

/-! ## String lemmas for the round trip -/

/-- Splitting a string that does not contain the separator. -/
lemma pySplitOn_no_sep (c : Char) : ∀ l : List Char, c ∉ l →
    pySplitOn c l = [l] := by
  intro l
  induction l with
  | nil => intro _; rfl
  | cons x xs ih =>
    intro h
    have hx : ¬(x = c) := fun he => h (he ▸ List.mem_cons_self _ _)
    have hxs : c ∉ xs := fun hm => h (List.mem_cons_of_mem _ hm)
    simp only [pySplitOn, if_neg hx, ih hxs]

/-- Splitting peels off a separator-free prefix. -/
lemma pySplitOn_append (c : Char) : ∀ (l r : List Char), c ∉ l →
    pySplitOn c (l ++ c :: r) = l :: pySplitOn c r := by
  intro l
  induction l with
  | nil =>
    intro r _
    simp [pySplitOn]
  | cons x xs ih =>
    intro r h
    have hx : ¬(x = c) := fun he => h (he ▸ List.mem_cons_self _ _)
    have hxs : c ∉ xs := fun hm => h (List.mem_cons_of_mem _ hm)
    show pySplitOn c (x :: (xs ++ c :: r)) = (x :: xs) :: pySplitOn c r
    simp only [pySplitOn, if_neg hx, ih r hxs]

/-- Splitting recovers the lines of an `intercalate` when no line holds
the separator. -/
lemma pySplitOn_joinLines : ∀ (lines : List (List Char)), lines ≠ [] →
    (∀ l ∈ lines, '\n' ∉ l) →
    pySplitOn '\n' (joinLines lines) = lines := by
  intro lines
  induction lines with
  | nil => intro h _; exact absurd rfl h
  | cons l ls ih =>
    intro _ hno
    cases ls with
    | nil =>
      show pySplitOn '\n' (joinLines [l]) = [l]
      have : joinLines [l] = l := by
        simp [joinLines, List.intercalate, List.intersperse]
      rw [this]
      exact pySplitOn_no_sep _ l (hno l (List.mem_cons_self _ _))
    | cons l2 ls2 =>
      have hj : joinLines (l :: l2 :: ls2) = l ++ '\n' :: joinLines (l2 :: ls2) := by
        simp [joinLines, List.intercalate, List.intersperse]
      rw [hj, pySplitOn_append '\n' l _ (hno l (List.mem_cons_self _ _))]
      rw [ih (by simp) (fun x hx => hno x (List.mem_cons_of_mem _ hx))]

/-- `lstrip` never lengthens. -/
lemma pyStripLeft_length_le : ∀ l : List Char,
    (pyStripLeft l).length ≤ l.length := by
  intro l
  induction l with
  | nil => simp [pyStripLeft]
  | cons c cs ih =>
    by_cases h : pyIsSpace c
    · simp only [pyStripLeft, h, if_true]
      exact Nat.le_trans ih (by simp)
    · simp [pyStripLeft, h]

/-- `lstrip` returns a suffix. -/
lemma pyStripLeft_suffix : ∀ l : List Char, pyStripLeft l <:+ l := by
  intro l
  induction l with
  | nil => exact ⟨[], rfl⟩
  | cons c cs ih =>
    by_cases h : pyIsSpace c
    · simp only [pyStripLeft, h, if_true]
      exact ih.trans (List.suffix_cons c cs)
    · simp [pyStripLeft, h]

/-- A nonempty `lstrip` fixed point starts with a non-space. -/
lemma pyStripLeft_head (c : Char) (cs : List Char)
    (h : pyStripLeft (c :: cs) = c :: cs) : pyIsSpace c = false := by
  by_cases hc : pyIsSpace c
  · exfalso
    rw [pyStripLeft, if_pos hc] at h
    have := pyStripLeft_length_le cs
    rw [h] at this
    simp at this
  · simp [hc]

/-- `lstrip` of a list of non-spaces is the identity. -/
lemma pyStripLeft_all_nonws : ∀ l : List Char,
    (∀ c ∈ l, pyIsSpace c = false) → pyStripLeft l = l := by
  intro l h
  cases l with
  | nil => rfl
  | cons c cs =>
    have := h c (List.mem_cons_self _ _)
    simp [pyStripLeft, this]

/-- A suffix of equal length is the whole list. -/
lemma suffix_eq_of_length {l₁ l₂ : List Char} (h : l₁ <:+ l₂)
    (hl : l₁.length = l₂.length) : l₁ = l₂ := by
  obtain ⟨t, ht⟩ := h
  have : t.length + l₁.length = l₂.length := by
    rw [← ht]; simp
  have ht0 : t = [] := by
    rw [hl] at this
    have : t.length = 0 := by omega
    exact List.length_eq_zero.mp this
  rw [ht0] at ht
  simpa using ht

/-- A `strip` fixed point is an `lstrip` fixed point on both ends. -/
lemma strip_eq_self (v : List Char) (h : pyStrip v = v) :
    pyStripLeft v = v ∧ pyStripLeft v.reverse = v.reverse := by
  have h1 : (pyStripLeft v).length ≤ v.length := pyStripLeft_length_le v
  have h2 : (pyStripLeft ((pyStripLeft v).reverse)).length ≤
      (pyStripLeft v).length := by
    have := pyStripLeft_length_le ((pyStripLeft v).reverse)
    simpa using this
  have hlen : v.length = (pyStripLeft ((pyStripLeft v).reverse)).length := by
    conv_lhs => rw [← h]
    simp [pyStrip]
  have hq1 : (pyStripLeft v).length = v.length := by omega
  have hfix1 : pyStripLeft v = v :=
    suffix_eq_of_length (pyStripLeft_suffix v) hq1
  refine ⟨hfix1, ?_⟩
  have hq2 : (pyStripLeft v.reverse).length = v.reverse.length := by
    rw [hfix1] at hlen
    simp [← hlen]
  exact suffix_eq_of_length (pyStripLeft_suffix v.reverse) hq2

/-- Stripping a rendered `NAME VALUE` line: the trailing space of an
empty value goes, everything else stays. -/
lemma pyStrip_renderLine (nm v : List Char) (hn : GoodName nm)
    (hv : pyStrip v = v) :
    pyStrip (nm ++ ' ' :: v) = nm ++ (if v = [] then [] else ' ' :: v) := by
  obtain ⟨hne, hall⟩ := hn
  obtain ⟨n0, nm', rfl⟩ : ∃ n0 nm', nm = n0 :: nm' := by
    cases nm with
    | nil => exact absurd rfl hne
    | cons a b => exact ⟨a, b, rfl⟩
  have hn0 : pyIsSpace n0 = false := (hall n0 (List.mem_cons_self _ _)).1
  have hL : pyStripLeft ((n0 :: nm') ++ ' ' :: v) = (n0 :: nm') ++ ' ' :: v := by
    show pyStripLeft (n0 :: (nm' ++ ' ' :: v)) = _
    simp [pyStripLeft, hn0]
  show List.reverse (pyStripLeft
      ((pyStripLeft ((n0 :: nm') ++ ' ' :: v)).reverse)) = _
  rw [hL]
  cases hvv : v with
  | nil =>
    have hrev : ((n0 :: nm') ++ ' ' :: ([] : List Char)).reverse =
        ' ' :: (n0 :: nm').reverse := by simp
    rw [hrev]
    have hsp : pyIsSpace ' ' = true := by decide
    rw [show pyStripLeft (' ' :: (n0 :: nm').reverse) =
        pyStripLeft ((n0 :: nm').reverse) by simp [pyStripLeft, hsp]]
    have hrall : ∀ c ∈ (n0 :: nm').reverse, pyIsSpace c = false := by
      intro c hc
      exact (hall c (List.mem_reverse.mp hc)).1
    rw [pyStripLeft_all_nonws _ hrall]
    simp
  | cons v0 vt =>
    rw [← hvv]
    have hvne : v ≠ [] := by rw [hvv]; simp
    have hrvne : v.reverse ≠ [] := by
      simpa using hvne
    obtain ⟨r0, rt, hrv⟩ : ∃ r0 rt, v.reverse = r0 :: rt := by
      cases hrc : v.reverse with
      | nil => exact absurd hrc hrvne
      | cons a b => exact ⟨a, b, rfl⟩
    have hfix := (strip_eq_self v hv).2
    rw [hrv] at hfix
    have hr0 : pyIsSpace r0 = false := pyStripLeft_head r0 rt hfix
    have hrev : ((n0 :: nm') ++ ' ' :: v).reverse =
        r0 :: (rt ++ ' ' :: (n0 :: nm').reverse) := by
      rw [List.reverse_append]
      simp [hrv]
    rw [hrev]
    rw [show pyStripLeft (r0 :: (rt ++ ' ' :: (n0 :: nm').reverse)) =
        r0 :: (rt ++ ' ' :: (n0 :: nm').reverse) by simp [pyStripLeft, hr0]]
    rw [← hrev]
    simp [hvne]

/-- Stripping a value with one leading space gives the value back. -/
lemma pyStrip_space_cons (v : List Char) (hv : pyStrip v = v) :
    pyStrip (' ' :: v) = v := by
  have hsp : pyIsSpace ' ' = true := by decide
  have h1 : pyStripLeft (' ' :: v) = pyStripLeft v := by simp [pyStripLeft, hsp]
  show List.reverse (pyStripLeft ((pyStripLeft (' ' :: v)).reverse)) = v
  rw [h1, (strip_eq_self v hv).1, (strip_eq_self v hv).2]
  simp

/-- A run of non-spaces accumulates. -/
lemma pySplitWsAux_nonws : ∀ (t r acc : List Char),
    (∀ c ∈ t, pyIsSpace c = false) →
    pySplitWsAux (t ++ r) acc = pySplitWsAux r (t.reverse ++ acc) := by
  intro t
  induction t with
  | nil => intro r acc _; simp
  | cons c t' ih =>
    intro r acc h
    have hc : pyIsSpace c = false := (h c (List.mem_cons_self _ _))
    show pySplitWsAux (c :: (t' ++ r)) acc = _
    rw [show pySplitWsAux (c :: (t' ++ r)) acc =
        pySplitWsAux (t' ++ r) (c :: acc) by simp [pySplitWsAux, hc]]
    rw [ih r (c :: acc) (fun x hx => h x (List.mem_cons_of_mem _ hx))]
    simp

/-- With a nonempty accumulator the worker never returns nothing. -/
lemma pySplitWsAux_ne_nil : ∀ (l acc : List Char), acc ≠ [] →
    pySplitWsAux l acc ≠ [] := by
  intro l
  induction l with
  | nil =>
    intro acc h
    simp [pySplitWsAux, h]
  | cons c cs ih =>
    intro acc h
    by_cases hc : pyIsSpace c
    · simp [pySplitWsAux, hc, h]
    · rw [show pySplitWsAux (c :: cs) acc = pySplitWsAux cs (c :: acc) by
        simp [pySplitWsAux, hc]]
      exact ih (c :: acc) (by simp)

/-- Whitespace splitting of a rendered line: the name becomes the first
token. -/
lemma pySplitWs_renderLine (nm v : List Char) (hn : GoodName nm) :
    pySplitWs (nm ++ ' ' :: v) = nm :: pySplitWs v := by
  obtain ⟨hne, hall⟩ := hn
  have hsp : pyIsSpace ' ' = true := by decide
  show pySplitWsAux (nm ++ ' ' :: v) [] = nm :: pySplitWsAux v []
  rw [pySplitWsAux_nonws nm (' ' :: v) [] (fun c hc => (hall c hc).1)]
  have hrev : nm.reverse ++ [] ≠ [] := by simpa using hne
  simp only [pySplitWsAux, hsp, if_true]
  rw [if_neg hrev]
  congr 1
  simp

/-- Splitting a whole token. -/
lemma pySplitWs_token (nm : List Char) (hne : nm ≠ [])
    (hall : ∀ c ∈ nm, pyIsSpace c = false) :
    pySplitWs nm = [nm] := by
  show pySplitWsAux nm [] = [nm]
  have := pySplitWsAux_nonws nm [] [] hall
  rw [List.append_nil] at this
  rw [this]
  have hrev : ¬(nm.reverse ++ [] = []) := by simpa using hne
  simp only [pySplitWsAux]
  rw [if_neg hrev]
  simp

/-- A nonempty stripped value splits into at least one token. -/
lemma pySplitWs_ne_nil (v : List Char) (hne : v ≠ [])
    (hv : pyStrip v = v) : pySplitWs v ≠ [] := by
  obtain ⟨v0, vt, rfl⟩ : ∃ v0 vt, v = v0 :: vt := by
    cases v with
    | nil => exact absurd rfl hne
    | cons a b => exact ⟨a, b, rfl⟩
  have h0 : pyIsSpace v0 = false :=
    pyStripLeft_head v0 vt (strip_eq_self _ hv).1
  show pySplitWsAux (v0 :: vt) [] ≠ []
  rw [show pySplitWsAux (v0 :: vt) [] = pySplitWsAux vt [v0] by
    simp [pySplitWsAux, h0]]
  exact pySplitWsAux_ne_nil vt [v0] (by simp)

/-- Parsing a rendered `NAME VALUE` line appends exactly that item. -/
lemma parseLine_renderLine (cfg : Config) (nm v : List Char)
    (hn : GoodName nm) (hv : GoodVal v) :
    parseLine cfg (nm ++ ' ' :: v) = .ok (appendLit cfg nm v) := by
  obtain ⟨hne, hall⟩ := hn
  obtain ⟨hvc, hvs⟩ := hv
  obtain ⟨n0, nm', rfl⟩ : ∃ n0 nm', nm = n0 :: nm' := by
    cases nm with
    | nil => exact absurd rfl hne
    | cons a b => exact ⟨a, b, rfl⟩
  set nm := n0 :: nm' with hnm
  have hstrip : pyStrip (nm ++ ' ' :: v) =
      nm ++ (if v = [] then [] else ' ' :: v) :=
    pyStrip_renderLine nm v ⟨hne, hall⟩ hvs
  have hskip : (headIs '#' (nm ++ ' ' :: v) || pyStrip (nm ++ ' ' :: v) = []) =
      false := by
    have hh : headIs '#' (nm ++ ' ' :: v) = false := by
      show headIs '#' (n0 :: (nm' ++ ' ' :: v)) = false
      have := (hall n0 (List.mem_cons_self _ _)).2
      simp [headIs, this]
    rw [hh, hstrip]
    simp
  have hnohash : '#' ∉ nm ++ ' ' :: v := by
    intro hmem
    rcases List.mem_append.mp hmem with h | h
    · exact (hall '#' h).2 rfl
    · rcases List.mem_cons.mp h with h | h
      · exact absurd h.symm (by decide)
      · exact (hvc '#' h).1 rfl
  have hsplit : pySplitOn '#' (nm ++ ' ' :: v) = [nm ++ ' ' :: v] :=
    pySplitOn_no_sep '#' _ hnohash
  rw [parseLine]
  rw [hskip]
  simp only [if_neg (by simp : ¬(false = true)), hsplit]
  rw [hstrip]
  by_cases hb : v = []
  · subst hb
    simp only [if_true, List.append_nil]
    rw [if_neg hne]
    rw [pySplitWs_token nm hne (fun c hc => (hall c hc).1)]
    rfl
  · simp only [if_neg hb]
    have hnemptyline : ¬(nm ++ ' ' :: v = []) := by simp
    rw [if_neg hnemptyline]
    rw [pySplitWs_renderLine nm v ⟨hne, hall⟩]
    cases hws : pySplitWs v with
    | nil => exact absurd hws (pySplitWs_ne_nil v hb hvs)
    | cons t ts =>
      have hval : pyStrip (List.drop nm.length (nm ++ ' ' :: v)) = v := by
        rw [show List.drop nm.length (nm ++ ' ' :: v) = ' ' :: v from
          List.drop_left nm (' ' :: v)]
        exact pyStrip_space_cons v hvs
      show Except.ok
          { items := cfg.items ++ [nm]
            settings := updD cfg.settings nm
              (Value.lit (pyStrip (List.drop nm.length (nm ++ ' ' :: v))))
            comments := updD cfg.comments nm []
            extras := cfg.extras } = Except.ok (appendLit cfg nm v)
      rw [hval]
      rfl

/-- Parsing a list of rendered lines appends all their items. -/
lemma parseLines_renderLines : ∀ (pairs : List (List Char × List Char))
    (cfg : Config),
    (∀ p ∈ pairs, GoodName p.1 ∧ GoodVal p.2) →
    parseLines cfg (pairs.map renderLine) = .ok (appendAll cfg pairs) := by
  intro pairs
  induction pairs with
  | nil => intro cfg _; rfl
  | cons p ps ih =>
    intro cfg h
    obtain ⟨hn, hv⟩ := h p (List.mem_cons_self _ _)
    show parseLines cfg (renderLine p :: ps.map renderLine) = _
    rw [parseLines]
    rw [show renderLine p = p.1 ++ ' ' :: p.2 from rfl]
    rw [parseLine_renderLine cfg p.1 p.2 hn hv]
    exact ih (appendLit cfg p.1 p.2) (fun q hq => h q (List.mem_cons_of_mem _ hq))

/-- Folding graph pairs `(nm, f nm)`: items are appended, and each name in
the list ends up mapped to `f` of itself. -/
lemma appendAll_graph (f : List Char → List Char) :
    ∀ (names : List (List Char)) (cfg : Config),
    (appendAll cfg (names.map fun nm => (nm, f nm))).items =
      cfg.items ++ names ∧
    (∀ k, (appendAll cfg (names.map fun nm => (nm, f nm))).settings k =
      if k ∈ names then some (.lit (f k)) else cfg.settings k) := by
  intro names
  induction names with
  | nil => intro cfg; exact ⟨by simp [appendAll], fun k => by simp [appendAll]⟩
  | cons nm names' ih =>
    intro cfg
    obtain ⟨i1, i2⟩ := ih (appendLit cfg nm (f nm))
    constructor
    · show (appendAll (appendLit cfg nm (f nm))
        (names'.map fun nm => (nm, f nm))).items = _
      rw [i1]
      show (cfg.items ++ [nm]) ++ names' = cfg.items ++ (nm :: names')
      simp
    · intro k
      show (appendAll (appendLit cfg nm (f nm))
        (names'.map fun nm => (nm, f nm))).settings k = _
      rw [i2 k]
      by_cases hk : k ∈ names'
      · rw [if_pos hk, if_pos (List.mem_cons_of_mem _ hk)]
      · rw [if_neg hk]
        show updD cfg.settings nm (.lit (f nm)) k = _
        rw [updD]
        by_cases he : k = nm
        · rw [if_pos he, if_pos (he ▸ List.mem_cons_self _ _), he]
        · rw [if_neg he, if_neg (by
            intro hc
            rcases List.mem_cons.mp hc with h | h
            · exact he h
            · exact hk h)]

/-- Literal stores render each item as one `NAME VALUE` line. -/
lemma getFileContents_lit (cfg : Config) (prox : Nat → ProxyData)
    (hv : ∀ nm ∈ cfg.items, ∃ v, cfg.settings nm = some (.lit v)) :
    getFileContents cfg prox =
      .ok (joinLines ((litPairs cfg).map renderLine)) := by
  have hnorm : ∀ l : List (List Char),
      (∀ nm ∈ l, ∃ v, cfg.settings nm = some (.lit v)) →
      normalizeItems cfg prox false l =
        .ok (l.map fun nm => (nm, fvalOf cfg nm)) := by
    intro l
    induction l with
    | nil => intro _; rfl
    | cons nm rest ih =>
      intro h
      obtain ⟨v, hvv⟩ := h nm (List.mem_cons_self _ _)
      have htl := ih (fun x hx => h x (List.mem_cons_of_mem _ hx))
      simp [normalizeItems, hvv, htl, fvalOf]
  have hgn : getNormalizedItems cfg prox false =
      .ok (cfg.items.map fun nm => (nm, fvalOf cfg nm)) := hnorm cfg.items hv
  unfold getFileContents
  rw [hgn]
  simp [litPairs, renderLine, List.map_map]
  rfl

/-- **C7, counterexample.**  The claim quantifies over *every* store
whose values are all literal strings.  A value containing `#` is
serialized verbatim, but on re-parse the `#` starts a comment: the store
`{OPT1: "a#b"}` round-trips to `{OPT1: "a"}`. -/
theorem claim_C7_counterexample :
    getFileContents c7cfg (fun _ => ⟨none, none⟩) = .ok "OPT1 a#b".data ∧
    reparsePairs "OPT1 a#b".data = [("OPT1".data, "a".data)] ∧
    litPairs c7cfg = [("OPT1".data, "a#b".data)] ∧
    [(("OPT1".data : List Char), ("a".data : List Char))] ≠
      [("OPT1".data, "a#b".data)] := by
  exact ⟨by rfl, by rfl, by rfl, by decide⟩

/-- **C7, amended.**  For every store whose values are all literal
strings that the config-file syntax can carry faithfully — names
nonempty without whitespace or `#`, values without `#` or newlines and
with no surrounding whitespace — parsing the string produced by
`get_file_contents()` yields a store whose ordered `(name, value)` pairs
are identical to the original's (comments need not be preserved). -/
theorem claim_C7 (cfg : Config) (prox : Nat → ProxyData)
    (hn : ∀ nm ∈ cfg.items, GoodName nm)
    (hv : ∀ nm ∈ cfg.items, ∃ v, cfg.settings nm = some (.lit v) ∧ GoodVal v) :
    ∀ fc, getFileContents cfg prox = .ok fc →
      ∃ cfg2, parseConfigFile fc = .ok cfg2 ∧ litPairs cfg2 = litPairs cfg := by
  intro fc hfc
  have hv' : ∀ nm ∈ cfg.items, ∃ v, cfg.settings nm = some (.lit v) :=
    fun nm h => ⟨(hv nm h).choose, (hv nm h).choose_spec.1⟩
  rw [getFileContents_lit cfg prox hv'] at hfc
  have hfc' : joinLines ((litPairs cfg).map renderLine) = fc := by
    injection hfc
  subst hfc'
  have hgoodv : ∀ nm ∈ cfg.items, GoodVal (fvalOf cfg nm) := by
    intro nm h
    obtain ⟨v, hvv, hgv⟩ := hv nm h
    have : fvalOf cfg nm = v := by simp [fvalOf, hvv]
    rw [this]
    exact hgv
  have hpairs : ∀ p ∈ litPairs cfg, GoodName p.1 ∧ GoodVal p.2 := by
    intro p hp
    rcases List.mem_map.mp hp with ⟨nm, hnm, hpe⟩
    rw [← hpe]
    exact ⟨hn nm hnm, hgoodv nm hnm⟩
  cases hitems : cfg.items with
  | nil =>
    have hlp : litPairs cfg = [] := by simp [litPairs, hitems]
    rw [hlp]
    exact ⟨emptyConfig, by rfl, by rfl⟩
  | cons nm0 rest =>
    have hlines_ne : (litPairs cfg).map renderLine ≠ [] := by
      simp [litPairs, hitems]
    have hno : ∀ l ∈ (litPairs cfg).map renderLine, '\n' ∉ l := by
      intro l hl
      rcases List.mem_map.mp hl with ⟨p, hp, hpe⟩
      obtain ⟨⟨hne, hall⟩, hvc, _⟩ := hpairs p hp
      rw [← hpe]
      intro hmem
      rcases List.mem_append.mp hmem with h | h
      · have := (hall '\n' h).1
        simp [pyIsSpace] at this
      · rcases List.mem_cons.mp h with h | h
        · exact absurd h.symm (by decide)
        · exact (hvc '\n' h).2 rfl
    have hsplit : pySplitOn '\n' (joinLines ((litPairs cfg).map renderLine)) =
        (litPairs cfg).map renderLine :=
      pySplitOn_joinLines _ hlines_ne hno
    have hparse : parseConfigFile (joinLines ((litPairs cfg).map renderLine)) =
        .ok (appendAll emptyConfig (litPairs cfg)) := by
      show parseLines emptyConfig
        (pySplitOn '\n' (joinLines ((litPairs cfg).map renderLine))) = _
      rw [hsplit]
      exact parseLines_renderLines (litPairs cfg) emptyConfig hpairs
    obtain ⟨g1, g2⟩ := appendAll_graph (fvalOf cfg) cfg.items emptyConfig
    have hpl : litPairs cfg = cfg.items.map fun nm => (nm, fvalOf cfg nm) := rfl
    refine ⟨appendAll emptyConfig (litPairs cfg), hparse, ?_⟩
    have hitems2 : (appendAll emptyConfig (litPairs cfg)).items = cfg.items := by
      rw [hpl, g1]
      rfl
    show (appendAll emptyConfig (litPairs cfg)).items.map
      (fun nm => (nm, fvalOf (appendAll emptyConfig (litPairs cfg)) nm)) = _
    rw [hitems2, hpl]
    apply List.map_congr_left
    intro nm hnm
    have hset2 : (appendAll emptyConfig (litPairs cfg)).settings nm =
        some (.lit (fvalOf cfg nm)) := by
      rw [hpl]
      rw [g2 nm, if_pos hnm]
    have hfv : fvalOf (appendAll emptyConfig (litPairs cfg)) nm =
        fvalOf cfg nm := by
      show (match (appendAll emptyConfig (litPairs cfg)).settings nm with
        | some (Value.lit v) => v
        | _ => []) = fvalOf cfg nm
      rw [hset2]
    rw [← hpl, hfv]

/-- Witness for C7: the two-item literal store parsed from
`"OPT1 5 # first\nOPT2 hello\n"` round-trips. -/
theorem claim_C7_witness :
    ∃ cfg2, parseConfigFile "OPT1 5\nOPT2 hello".data = .ok cfg2 ∧
      litPairs cfg2 = litPairs c7okcfg := by
  have h := claim_C7 c7okcfg (fun _ => ⟨none, none⟩)
    (by
      intro nm hnm
      simp [c7okcfg] at hnm
      rcases hnm with h | h <;> subst h <;>
        exact ⟨by decide, by decide⟩)
    (by
      intro nm hnm
      simp [c7okcfg] at hnm
      rcases hnm with h | h <;> subst h
      · exact ⟨"5".data, by simp [c7okcfg, updD], by decide, by decide⟩
      · exact ⟨"hello".data, by simp [c7okcfg, updD], by decide, by decide⟩)
    "OPT1 5\nOPT2 hello".data (by rfl)
  exact h
